import Mathlib

/-!
# yanga project templates: control loop, state machine and low pass filters

A shallow embedding of the C sources generated by the yanga project templates
(state_machine.c, low_pass_filter.c, low_pass_filter_avg.c, platform.h, sensor.c,
main.c) and of greeter.c of the mini template.

Modelling conventions:

* the C enum type State is modelled by its integer codes (Int), so that values
  outside the three enumerators, such as (State)9999, can be expressed;
* the C type double of the filters and of run is the IEEE 754 binary64 format:
  a value is a rational (finite), an infinity or a NaN, and every arithmetic
  operation and every decimal constant is rounded to nearest, ties to even, with
  overflow to infinity and gradual underflow; each operation is rounded on its own
  (no extended precision, no fused multiply-add) and the sign of zero is not
  represented;
* the successive results of read_sensor() are given by a stream
  readings : Nat → Double, the k-th call (counting from 0) returning readings k;
  read_sensor itself is given by the exact quotient it computes, whose rounding
  to binary64 stays within the same closed range;
* the static locals of run, the number of sensor reads so far and the
  chronological list of calls to the platform primitives form an explicit
  World that run transforms.
-/

/-! ## state_machine.h, state_machine.c -/

/-- The enum type State of state_machine.h, as integer codes. -/
abbrev State := Int

/-- Enumerator STATE_A (first enumerator, code 0). -/
def STATE_A : State := 0

/-- Enumerator STATE_B (code 1). -/
def STATE_B : State := 1

/-- Enumerator STATE_C (code 2). -/
def STATE_C : State := 2

/-- The function next_state of state_machine.c: a switch over the three
enumerators, followed by the fall-through return of STATE_A. -/
def next_state (current_state : State) : State :=
  if current_state = STATE_A then STATE_B
  else if current_state = STATE_B then STATE_C
  else if current_state = STATE_C then STATE_A
  else STATE_A

/-! ## The type double: IEEE 754 binary64 arithmetic -/

/-- Two to the power k, as a rational. -/
def pow2 (k : Int) : ℚ :=
  if 0 ≤ k then ((2 ^ k.toNat : Nat) : ℚ) else 1 / ((2 ^ (-k).toNat : Nat) : ℚ)

/-- The number of binary digits of n, computed with at most fuel halvings. -/
def bit_length : Nat → Nat → Nat
  | 0, _ => 0
  | fuel + 1, n => if n = 0 then 0 else bit_length fuel (n / 2) + 1

/-- The integer k with 2^k <= x < 2^(k+1), for x > 0: the difference of the bit
lengths of numerator and denominator, or one less. -/
def ilog2 (x : ℚ) : Int :=
  let k : Int := (bit_length x.num.natAbs x.num.natAbs : Int) - (bit_length x.den x.den : Int)
  if pow2 k ≤ x then k else k - 1

/-- Rounding of a rational to an integer, to nearest with ties to even. -/
def round_half_even (y : ℚ) : Int :=
  if y - ⌊y⌋ < 1 / 2 then ⌊y⌋
  else if 1 / 2 < y - ⌊y⌋ then ⌊y⌋ + 1
  else if ⌊y⌋ % 2 = 0 then ⌊y⌋ else ⌊y⌋ + 1

/-- The exponent of the unit in the last place of a binary64 number of
magnitude x > 0: 52 below the binary logarithm of x (53 significant bits), and
at least -1074 (subnormal numbers). -/
def exponent (x : ℚ) : Int := max (ilog2 x - 52) (-1074)

/-- Rounding of x > 0 to the nearest multiple of two to its exponent, ties to
even. -/
def round_pos (x : ℚ) : ℚ :=
  (round_half_even (x / pow2 (exponent x)) : ℚ) * pow2 (exponent x)

/-- Rounding of a rational to the nearest binary64 number, ties to even, before
the test for overflow. -/
def round_nearest (x : ℚ) : ℚ :=
  if x = 0 then 0 else if x < 0 then - round_pos (-x) else round_pos x

/-- A value of the C type double. -/
inductive Double where
  | finite (v : ℚ)
  | pos_inf
  | neg_inf
  | nan
  deriving DecidableEq, Repr

namespace Double

/-- Conversion of an exact result to binary64: rounding to nearest, and an
infinity when the rounded magnitude reaches 2^1024. -/
def round (x : ℚ) : Double :=
  if pow2 1024 ≤ round_nearest x then pos_inf
  else if round_nearest x ≤ - pow2 1024 then neg_inf
  else finite (round_nearest x)

/-- Addition of doubles. -/
def add : Double → Double → Double
  | finite a, finite b => round (a + b)
  | finite _, pos_inf => pos_inf
  | finite _, neg_inf => neg_inf
  | pos_inf, finite _ => pos_inf
  | pos_inf, pos_inf => pos_inf
  | neg_inf, finite _ => neg_inf
  | neg_inf, neg_inf => neg_inf
  | _, _ => nan

/-- Negation of a double. -/
def neg : Double → Double
  | finite a => finite (-a)
  | pos_inf => neg_inf
  | neg_inf => pos_inf
  | nan => nan

/-- Subtraction of doubles. -/
def sub (a b : Double) : Double := add a (neg b)

/-- Multiplication of doubles. -/
def mul : Double → Double → Double
  | finite a, finite b => round (a * b)
  | finite a, pos_inf => if a = 0 then nan else if 0 < a then pos_inf else neg_inf
  | finite a, neg_inf => if a = 0 then nan else if 0 < a then neg_inf else pos_inf
  | pos_inf, finite b => if b = 0 then nan else if 0 < b then pos_inf else neg_inf
  | neg_inf, finite b => if b = 0 then nan else if 0 < b then neg_inf else pos_inf
  | pos_inf, pos_inf => pos_inf
  | pos_inf, neg_inf => neg_inf
  | neg_inf, pos_inf => neg_inf
  | neg_inf, neg_inf => pos_inf
  | _, _ => nan

/-- Division of doubles (a zero divisor is taken to be positive). -/
def div : Double → Double → Double
  | finite a, finite b =>
    if b = 0 then (if a = 0 then nan else if 0 < a then pos_inf else neg_inf)
    else round (a / b)
  | finite _, pos_inf => finite 0
  | finite _, neg_inf => finite 0
  | pos_inf, finite b => if 0 ≤ b then pos_inf else neg_inf
  | neg_inf, finite b => if 0 ≤ b then neg_inf else pos_inf
  | _, _ => nan

end Double

/-- A rational is a finite binary64 number when conversion to binary64 leaves
it unchanged. -/
def is_double (x : ℚ) : Prop := Double.round x = Double.finite x

instance is_double_decidable (x : ℚ) : Decidable (is_double x) :=
  inferInstanceAs (Decidable (Double.round x = Double.finite x))

/-- The largest finite binary64 number, DBL_MAX of float.h. -/
def DBL_MAX : ℚ := (2 ^ 53 - 1) * 2 ^ 971

/-! ## low_pass_filter_avg.c and low_pass_filter.c -/

namespace Avg

/-- The function low_pass_filter of low_pass_filter_avg.c (running mean):
(current_value + new_value) / 2.0. -/
def low_pass_filter (current_value new_value : Double) : Double :=
  Double.div (Double.add current_value new_value) (Double.round 2)

end Avg

namespace Ema

/-- The constant ALPHA of low_pass_filter.c: the decimal constant 0.1. -/
def ALPHA : Double := Double.round (1 / 10)

/-- The function low_pass_filter of low_pass_filter.c (exponential moving
average): current_value * (1.0 - ALPHA) + new_value * ALPHA. -/
def low_pass_filter (current_value new_value : Double) : Double :=
  Double.add (Double.mul current_value (Double.sub (Double.round 1) ALPHA))
    (Double.mul new_value ALPHA)

end Ema

/-- The loop of test_low_pass_filter.c: feeds the inputs in order through the
filter, starting from filtered_value, and collects the value obtained after each
input. -/
def filter_sequence (filter : Double → Double → Double) : Double → List Double → List Double
  | _, [] => []
  | filtered_value, x :: rest =>
    filter filtered_value x :: filter_sequence filter (filter filtered_value x) rest

/-! ## platform.h -/

/-- The build targets distinguished by platform.h: ARDUINO defined, else _WIN32
defined, else neither. -/
inductive Target where
  | arduino
  | win32
  | unix_like
  deriving DecidableEq, Repr

/-- The string constant PLATFORM of platform.h. -/
def PLATFORM : Target → String
  | .arduino => "Arduino"
  | .win32 => "WIN32"
  | .unix_like => "Unix-like"

/-- One call of a platform primitive, with its arguments. The printf
constructors record a call of PRINTF by its format string and argument. -/
inductive Event where
  | printf (fmt : String)
  | printf_d (fmt : String) (arg : Int)
  | printf_f (fmt : String) (arg : Double)
  | printf_s (fmt : String) (arg : String)
  | delay (ms : Int)
  | Sleep (ms : Int)
  | usleep (us : Int)
  deriving DecidableEq, Repr

/-- The function-like definition SLEEP(ms) of platform.h: delay(ms) on
Arduino, Sleep(ms) on Windows and usleep(ms*1000) otherwise. -/
def SLEEP (t : Target) (ms : Int) : Event :=
  match t with
  | .arduino => Event.delay ms
  | .win32 => Event.Sleep ms
  | .unix_like => Event.usleep (ms * 1000)

/-- The pause requested by an event, in milliseconds: delay and Sleep take
milliseconds, usleep takes microseconds; none for an output event. -/
def pause_ms : Event → Option Int
  | .delay ms => some ms
  | .Sleep ms => some ms
  | .usleep us => some (us / 1000)
  | _ => none

/-! ## main.c: run -/

/-- The two static locals of run. -/
structure LoopState where
  state : State
  value : Double
  deriving DecidableEq, Repr

/-- The initialisers of the static locals: state = STATE_A, value = 0. -/
def initial_loop_state : LoopState := { state := STATE_A, value := Double.finite 0 }

/-- Everything run reads or writes: its static locals, how many times
read_sensor has been called, and the calls of platform primitives so far, oldest
first. -/
structure World where
  loop : LoopState
  reads : Nat
  out : List Event
  deriving DecidableEq, Repr

/-- The world at process start. -/
def initial_world : World := { loop := initial_loop_state, reads := 0, out := [] }

/-- The body of the for loop of run (main.c lines 12 to 20). -/
def run_body (t : Target) (filter : Double → Double → Double) (readings : Nat → Double)
    (w : World) : World :=
  let state := next_state w.loop.state
  let out1 := w.out ++ [Event.printf_d "State: %d\n" state]
  let raw := readings w.reads
  let value := filter w.loop.value raw
  let out2 := out1 ++ [Event.printf_f "Filtered value: %f\n" value]
  { loop := { state := state, value := value },
    reads := w.reads + 1,
    out := out2 ++ [SLEEP t 100] }

/-- The for loop of run from counter value i on: while i < num_iterations,
execute the body and increment i. The first argument bounds the number of
iterations; none is returned when it is exhausted with the loop condition still
true. -/
def run_loop (t : Target) (filter : Double → Double → Double) (readings : Nat → Double)
    (num_iterations : Int) : Nat → Int → World → Option World
  | 0, i, w => if i < num_iterations then none else some w
  | fuel + 1, i, w =>
    if i < num_iterations then
      run_loop t filter readings num_iterations fuel (i + 1) (run_body t filter readings w)
    else some w

/-- The function run of main.c: the loop started at i = 0. -/
def run (t : Target) (filter : Double → Double → Double) (readings : Nat → Double)
    (num_iterations : Int) (w : World) : Option World :=
  run_loop t filter readings num_iterations num_iterations.toNat 0 w

/-! ## Observations on worlds and readings -/

/-- The readings returned by the k calls of read_sensor that follow the first
start calls. -/
def readings_from {α : Type} (readings : Nat → α) (start k : Nat) : List α :=
  (List.range k).map (fun j => readings (start + j))

/-- A stream of finite readings, given by their values. -/
def finite_readings (r : Nat → ℚ) : Nat → Double := fun j => Double.finite (r j)

/-- The argument of an event that reports a filtered value, that is of a call
PRINTF("Filtered value: %f\n", v). -/
def reported_value : Event → Option Double
  | Event.printf_f fmt v => if fmt = "Filtered value: %f\n" then some v else none
  | _ => none

/-- The argument of an event that reports a state, that is of a call
PRINTF("State: %d\n", s). -/
def reported_state : Event → Option Int
  | Event.printf_d fmt s => if fmt = "State: %d\n" then some s else none
  | _ => none

/-- The filtered values reported in a trace, in order. -/
def reported_values (out : List Event) : List Double := out.filterMap reported_value

/-- The state codes reported in a trace, in order. -/
def reported_states (out : List Event) : List Int := out.filterMap reported_state

/-- The least of v and the elements of rs. -/
def span_lo (v : ℚ) (rs : List ℚ) : ℚ := rs.foldl min v

/-- The greatest of v and the elements of rs. -/
def span_hi (v : ℚ) (rs : List ℚ) : ℚ := rs.foldl max v

/-- The events of one loop iteration that reports state s and value v. -/
def iteration_events (t : Target) (s : State) (v : Double) : List Event :=
  [Event.printf_d "State: %d\n" s, Event.printf_f "Filtered value: %f\n" v, SLEEP t 100]

/-- The world reached from w after k executions of the loop body, in closed
form: the state advanced k times, the value folded over the next k readings, and
one triple of events appended per iteration. -/
def after_iterations (t : Target) (filter : Double → Double → Double)
    (readings : Nat → Double) (k : Nat) (w : World) : World :=
  { loop :=
      { state := next_state^[k] w.loop.state,
        value := List.foldl filter w.loop.value (readings_from readings w.reads k) },
    reads := w.reads + k,
    out := w.out ++ (List.range k).flatMap (fun j =>
      iteration_events t (next_state^[j + 1] w.loop.state)
        (List.foldl filter w.loop.value (readings_from readings w.reads (j + 1)))) }

/-- Whether folding the running mean from v over rs meets no rounding: every
sum and every half is a binary64 number. -/
def exact_mean_steps : ℚ → List ℚ → Prop
  | _, [] => True
  | v, r :: rs => is_double (v + r) ∧ is_double ((v + r) / 2) ∧ exact_mean_steps ((v + r) / 2) rs

/-! ## sensor.c -/

/-- The function read_sensor of sensor.c, as a function of the result raw of
its call to the random source: random(100) / 100.0 when ARDUINO is defined,
rand() / (double) RAND_MAX otherwise. RAND_MAX is the constant of stdlib.h. -/
def read_sensor (t : Target) (RAND_MAX : Int) (raw : Int) : ℚ :=
  match t with
  | .arduino => (raw : ℚ) / 100
  | _ => (raw : ℚ) / (RAND_MAX : ℚ)

/-! ## main.c: main -/

/-- The C library predicate isspace in the C locale: space, \t, \n, \v, \f,
\r. -/
def isspace (c : Char) : Bool :=
  c = ' ' || c = '\t' || c = '\n' || c = Char.ofNat 11 || c = Char.ofNat 12 || c = '\r'

/-- The digit loop of the C library function atoi: accumulates decimal digits
until the first character that is not a digit. -/
def atoi_digits : Int → List Char → Int
  | acc, [] => acc
  | acc, c :: cs =>
    if c.isDigit then atoi_digits (acc * 10 + ((c.toNat : Int) - 48)) cs else acc

/-- The number a string denotes for the C library functions strtol and atoi:
leading white space is skipped, an optional sign is read, then the longest run of
decimal digits is converted; the rest of the string is ignored and the number is
0 when there is no digit. -/
def atoi_chars (cs : List Char) : Int :=
  match cs.dropWhile isspace with
  | [] => 0
  | c :: rest =>
    if c = '-' then - atoi_digits 0 rest
    else if c = '+' then atoi_digits 0 rest
    else atoi_digits 0 (c :: rest)

/-- The result of strtol for the number v: v limited to the range of the type
long of long_bits bits (LONG_MIN or LONG_MAX beyond it). -/
def to_long (long_bits : Nat) (v : Int) : Int :=
  max (-(2 ^ (long_bits - 1))) (min (2 ^ (long_bits - 1) - 1) v)

/-- Conversion of an integer to the 32-bit type int: reduction modulo 2^32
into -2^31 .. 2^31 - 1. -/
def to_int (v : Int) : Int := (v + 2 ^ 31) % 2 ^ 32 - 2 ^ 31

/-- The C library function atoi, as (int) strtol(nptr, NULL, 10). The width
long_bits of the type long belongs to the platform: 64 on Linux and macOS,
where a number out of the range of int wraps, 32 on Windows, where it
saturates. -/
def atoi (long_bits : Nat) (nptr : String) : Int :=
  to_int (to_long long_bits (atoi_chars nptr.toList))

namespace Program

/-- The function main of main.c, called with the argument vector argv (argc is
its length, argv[0] the program name) in world w; returns the exit status and the
final world. main.c compiles main only when ARDUINO is not defined: on the
Arduino target there is no main and the result is none. The result is also none
should the loop bound of run be exhausted. -/
def main (t : Target) (long_bits : Nat) (filter : Double → Double → Double)
    (readings : Nat → Double) (argv : List String) (w : World) : Option (Int × World) :=
  match t with
  | .arduino => none
  | _ =>
    let num_iterations : Int :=
      match argv with
      | _ :: arg1 :: _ => atoi long_bits arg1
      | _ => 0
    let out1 := w.out ++ [Event.printf_s "Running on %s...\n" (PLATFORM t)]
    let out2 :=
      if num_iterations > 0 then
        out1 ++ [Event.printf_d "Running for %d iterations...\n" num_iterations]
      else
        out1 ++ [Event.printf "Skip running...\n"]
    match run t filter readings num_iterations { w with out := out2 } with
    | some w' => some (0, w')
    | none => none

end Program

/-! ## greeter.c -/

/-- The function get_greeting of greeter.c. The argument is the configuration
flag CONFIG_LANG_DE of autoconf.h: none when it is not defined, some v when it is
defined with the integer value v. -/
def get_greeting (CONFIG_LANG_DE : Option Int) : String :=
  if CONFIG_LANG_DE = some 1 then "Hallo, Welt!" else "Hello, world!"

/-! ## Observations on arguments and printed text -/

/-- The iteration count main parses from its argument vector: atoi of argv[1]
when argc > 1, else 0. -/
def parsed_iterations (long_bits : Nat) (argv : List String) : Int :=
  match argv with
  | _ :: arg1 :: _ => atoi long_bits arg1
  | _ => 0

/-- Whether a string begins, after leading white space and an optional sign,
with a decimal digit. -/
def starts_with_number (s : String) : Bool :=
  match s.toList.dropWhile isspace with
  | [] => false
  | c :: rest =>
    if c = '-' || c = '+' then
      match rest with
      | [] => false
      | d :: _ => d.isDigit
    else c.isDigit

/-- The characters of a format with its first %d conversion replaced by the
characters a. -/
def subst_d : List Char → List Char → List Char
  | [], _ => []
  | c :: rest, a =>
    if c = '%' && rest.head? = some 'd' then a ++ rest.tail else c :: subst_d rest a

/-- The text written by printf for a format with one %d conversion and an
integer argument. -/
def printf_d_text (fmt : String) (arg : Int) : String :=
  String.mk (subst_d fmt.toList (toString arg).toList)

/-! ## Theorems -/

/-- C1: next_state maps STATE_A to STATE_B, STATE_B to STATE_C and STATE_C to
STATE_A. -/
theorem next_state_cycle :
    next_state STATE_A = STATE_B ∧ next_state STATE_B = STATE_C ∧
      next_state STATE_C = STATE_A := by
  decide

/-- C2: for every state value whose integer code is none of 0, 1, 2 (the codes
of STATE_A, STATE_B, STATE_C), next_state returns STATE_A. -/
theorem next_state_default (s : State) (h0 : s ≠ 0) (h1 : s ≠ 1) (h2 : s ≠ 2) :
    next_state s = STATE_A ∧ STATE_A = 0 ∧ STATE_B = 1 ∧ STATE_C = 2 := by
  refine ⟨?_, rfl, rfl, rfl⟩
  unfold next_state STATE_A STATE_B STATE_C
  simp [h0, h1, h2]

/-- Witness for C2 at the code 9999 used by the unit test and at the negative
code -1. -/
theorem next_state_default_witness :
    (next_state 9999 = STATE_A ∧ STATE_A = 0 ∧ STATE_B = 1 ∧ STATE_C = 2) ∧
      (next_state (-1) = STATE_A ∧ STATE_A = 0 ∧ STATE_B = 1 ∧ STATE_C = 2) :=
  ⟨next_state_default 9999 (by decide) (by decide) (by decide),
    next_state_default (-1) (by decide) (by decide) (by decide)⟩

/-! ### The loop of run in closed form -/

theorem readings_from_succ {α : Type} (readings : Nat → α) (start k : Nat) :
    readings_from readings start (k + 1) =
      readings_from readings start k ++ [readings (start + k)] := by
  simp [readings_from, List.range_succ]

theorem run_body_iterate (t : Target) (filter : Double → Double → Double) (readings : Nat → Double) (k : Nat)
    (w : World) :
    (run_body t filter readings)^[k] w = after_iterations t filter readings k w := by
  induction k with
  | zero => simp [after_iterations, readings_from]
  | succ k ih =>
    rw [Function.iterate_succ_apply', ih]
    simp only [run_body, after_iterations, World.mk.injEq, LoopState.mk.injEq]
    refine ⟨⟨?_, ?_⟩, ?_, ?_⟩
    · rw [Function.iterate_succ_apply']
    · rw [readings_from_succ, List.foldl_append]; rfl
    · omega
    · rw [List.range_succ, List.flatMap_append]
      simp only [List.flatMap_cons, List.flatMap_nil, List.append_nil, iteration_events,
        List.append_assoc, List.singleton_append, List.cons_append, List.nil_append]
      rw [Function.iterate_succ_apply', readings_from_succ, List.foldl_append]
      rfl

/-- Any bound of at least max(num_iterations - i, 0) iterations lets the loop
run to its end, which is reached after exactly that many executions of the
body. -/
theorem run_loop_eq (t : Target) (filter : Double → Double → Double) (readings : Nat → Double) (n : Int) :
    ∀ (fuel : Nat) (i : Int) (w : World), (n - i).toNat ≤ fuel →
      run_loop t filter readings n fuel i w =
        some ((run_body t filter readings)^[(n - i).toNat] w) := by
  intro fuel
  induction fuel with
  | zero =>
    intro i w h
    have hi : ¬ i < n := by omega
    have h0 : (n - i).toNat = 0 := by omega
    simp [run_loop, hi, h0]
  | succ fuel ih =>
    intro i w h
    by_cases hi : i < n
    · have hs : (n - i).toNat = (n - (i + 1)).toNat + 1 := by omega
      rw [run_loop, if_pos hi, ih (i + 1) _ (by omega), hs, Function.iterate_succ_apply]
    · have h0 : (n - i).toNat = 0 := by omega
      simp [run_loop, hi, h0]

theorem run_eq_iterate (t : Target) (filter : Double → Double → Double) (readings : Nat → Double) (n : Int)
    (w : World) :
    run t filter readings n w = some ((run_body t filter readings)^[n.toNat] w) := by
  rw [run, run_loop_eq t filter readings n n.toNat 0 w (by simp)]
  simp

theorem run_eq (t : Target) (filter : Double → Double → Double) (readings : Nat → Double) (n : Int) (w : World) :
    run t filter readings n w = some (after_iterations t filter readings n.toNat w) := by
  rw [run_eq_iterate, run_body_iterate]

/-! ### Claims on run: iteration count and short-circuit -/

/-- C3: for every n > 0, every starting world (LoopState (s, v)) and every stream
of sensor readings, run(n) returns after exactly n executions of the loop body;
it consumes exactly n readings, ends with the state next_state applied n times to
s and with the value the left fold of the filter over the n readings, starting
from v. -/
theorem run_positive (t : Target) (filter : Double → Double → Double) (readings : Nat → Double) (n : Int)
    (w : World) (hn : 0 < n) :
    ∃ w', run t filter readings n w = some w' ∧
      ((n.toNat : Int) = n) ∧
      w' = (run_body t filter readings)^[n.toNat] w ∧
      w'.reads = w.reads + n.toNat ∧
      w'.loop.state = next_state^[n.toNat] w.loop.state ∧
      w'.loop.value =
        List.foldl filter w.loop.value (readings_from readings w.reads n.toNat) := by
  refine ⟨_, run_eq_iterate t filter readings n w, Int.toNat_of_nonneg hn.le, rfl, ?_⟩
  rw [run_body_iterate]
  exact ⟨rfl, rfl, rfl⟩

/-- Witness for C3: run(3) from the initial world with the running mean. -/
theorem run_positive_witness :
    ∃ w', run Target.unix_like Avg.low_pass_filter (fun _ => Double.finite 1) 3 initial_world = some w' ∧
      ((Int.toNat 3 : Int) = 3) ∧
      w' = (run_body Target.unix_like Avg.low_pass_filter (fun _ => Double.finite 1))^[Int.toNat 3]
        initial_world ∧
      w'.reads = initial_world.reads + Int.toNat 3 ∧
      w'.loop.state = next_state^[Int.toNat 3] initial_world.loop.state ∧
      w'.loop.value =
        List.foldl Avg.low_pass_filter initial_world.loop.value
          (readings_from (fun _ => Double.finite 1) initial_world.reads (Int.toNat 3)) :=
  run_positive Target.unix_like Avg.low_pass_filter (fun _ => Double.finite 1) 3 initial_world (by decide)

/-- C4: for every n <= 0 and every starting world, run(n) returns without
executing the loop body: the state, the value, the number of readings consumed
and the trace of emitted lines and pauses are all unchanged. -/
theorem run_nonpositive (t : Target) (filter : Double → Double → Double) (readings : Nat → Double) (n : Int)
    (w : World) (hn : n ≤ 0) :
    run t filter readings n w = some w := by
  rw [run_eq_iterate, Int.toNat_of_nonpos hn]
  rfl

/-- Witness for C4: run(-5) and run(0) leave the initial world unchanged. -/
theorem run_nonpositive_witness :
    run Target.unix_like Avg.low_pass_filter (fun _ => Double.finite 1) (-5) initial_world
        = some initial_world ∧
      run Target.unix_like Avg.low_pass_filter (fun _ => Double.finite 1) 0 initial_world
        = some initial_world :=
  ⟨run_nonpositive Target.unix_like Avg.low_pass_filter (fun _ => Double.finite 1) (-5) initial_world
      (by decide),
    run_nonpositive Target.unix_like Avg.low_pass_filter (fun _ => Double.finite 1) 0 initial_world
      (by decide)⟩

/-! ### Rounding to binary64: order, fixed points and error -/

theorem pow2_eq (k : Int) : pow2 k = (2 : ℚ) ^ k := by
  unfold pow2
  split
  · rename_i h
    obtain ⟨n, rfl⟩ := Int.eq_ofNat_of_zero_le h
    simp
  · rename_i h
    obtain ⟨n, hn⟩ := Int.eq_ofNat_of_zero_le (show 0 ≤ -k by omega)
    have hk : k = -(n : Int) := by omega
    subst hk
    simp

theorem pow2_pos (k : Int) : 0 < pow2 k := by
  rw [pow2_eq]; positivity

theorem pow2_add (a b : Int) : pow2 (a + b) = pow2 a * pow2 b := by
  simp only [pow2_eq]; exact zpow_add₀ (by norm_num) a b

theorem pow2_le_pow2 {a b : Int} (h : a ≤ b) : pow2 a ≤ pow2 b := by
  simp only [pow2_eq]; exact zpow_le_zpow_right₀ (by norm_num) h

theorem pow2_lt_pow2_iff {a b : Int} : pow2 a < pow2 b ↔ a < b := by
  simp only [pow2_eq]; exact zpow_lt_zpow_iff_right₀ (by norm_num)

theorem bit_length_spec : ∀ (fuel n : Nat), n ≤ fuel →
    n < 2 ^ bit_length fuel n ∧ (n ≠ 0 → 2 ^ (bit_length fuel n - 1) ≤ n) := by
  intro fuel
  induction fuel with
  | zero =>
    intro n h
    have : n = 0 := by omega
    subst this
    simp [bit_length]
  | succ fuel ih =>
    intro n h
    by_cases hn : n = 0
    · subst hn; simp [bit_length]
    · obtain ⟨h1, h2⟩ := ih (n / 2) (by omega)
      simp only [bit_length, hn, if_false, Nat.add_sub_cancel]
      constructor
      · rw [pow_succ]; omega
      · intro _
        by_cases hh : n / 2 = 0
        · have : bit_length fuel (n / 2) = 0 := by
            rw [hh]; cases fuel <;> simp [bit_length]
          rw [this]; simp; omega
        · have h3 := h2 hh
          have hb : bit_length fuel (n / 2) ≠ 0 := by
            intro h0; rw [h0] at h1; simp at h1; exact hh h1
          obtain ⟨m, hm⟩ : ∃ m, bit_length fuel (n / 2) = m + 1 := ⟨_, (Nat.succ_pred_eq_of_ne_zero hb).symm⟩
          rw [hm] at h3 ⊢
          simp only [Nat.add_sub_cancel] at h3
          rw [pow_succ]; omega

theorem ilog2_spec (x : ℚ) (hx : 0 < x) :
    pow2 (ilog2 x) ≤ x ∧ x < pow2 (ilog2 x + 1) := by
  have hnum : 0 < x.num := Rat.num_pos.mpr hx
  have hden : 0 < x.den := x.den_pos
  obtain ⟨a, ha⟩ := Int.eq_ofNat_of_zero_le hnum.le
  have ha0 : a ≠ 0 := by intro h; subst h; simp [ha] at hnum
  have hb0 : x.den ≠ 0 := x.den_nz
  have hxa : x = (a : ℚ) / (x.den : ℚ) := by
    have h := (Rat.num_div_den x).symm
    rw [ha, Int.cast_natCast] at h
    exact h
  obtain ⟨a1, a2⟩ := bit_length_spec a a le_rfl
  obtain ⟨b1, b2⟩ := bit_length_spec x.den x.den le_rfl
  have a2 := a2 ha0
  have b2 := b2 hb0
  have hna : x.num.natAbs = a := by rw [ha]; rfl
  set la := bit_length a a with hla
  set lb := bit_length x.den x.den with hlb
  have hla0 : la ≠ 0 := by intro h; rw [h] at a1; simp at a1; exact ha0 a1
  have hlb0 : lb ≠ 0 := by intro h; rw [h] at b1; simp at b1
  have hbq : (0 : ℚ) < (x.den : ℚ) := by exact_mod_cast hden
  -- bounds in ℚ
  have a1q : (a : ℚ) < (2 : ℚ) ^ (la : Int) := by
    rw [zpow_natCast]; exact_mod_cast a1
  have b1q : (x.den : ℚ) < (2 : ℚ) ^ (lb : Int) := by
    rw [zpow_natCast]; exact_mod_cast b1
  have a2q : (2 : ℚ) ^ ((la : Int) - 1) ≤ (a : ℚ) := by
    have : ((la : Int) - 1) = ((la - 1 : Nat) : Int) := by omega
    rw [this, zpow_natCast]; exact_mod_cast a2
  have b2q : (2 : ℚ) ^ ((lb : Int) - 1) ≤ (x.den : ℚ) := by
    have : ((lb : Int) - 1) = ((lb - 1 : Nat) : Int) := by omega
    rw [this, zpow_natCast]; exact_mod_cast b2
  have hup : x < (2 : ℚ) ^ ((la : Int) - lb + 1) := by
    have e : ((la : Int) - lb + 1) = (la : Int) - ((lb : Int) - 1) := by omega
    rw [e, zpow_sub₀ (by norm_num : (2 : ℚ) ≠ 0), hxa, div_lt_div_iff₀ hbq (by positivity)]
    calc (a : ℚ) * 2 ^ ((lb : Int) - 1) ≤ (a : ℚ) * x.den := by
          apply mul_le_mul_of_nonneg_left b2q; positivity
      _ < 2 ^ (la : Int) * x.den := by
          apply mul_lt_mul_of_pos_right a1q hbq
  have hlo : (2 : ℚ) ^ ((la : Int) - lb - 1) ≤ x := by
    have e : ((la : Int) - lb - 1) = ((la : Int) - 1) - (lb : Int) := by omega
    rw [e, zpow_sub₀ (by norm_num : (2 : ℚ) ≠ 0), hxa, div_le_div_iff₀ (by positivity) hbq]
    calc (2 : ℚ) ^ ((la : Int) - 1) * x.den ≤ (a : ℚ) * x.den := by
          apply mul_le_mul_of_nonneg_right a2q hbq.le
      _ ≤ (a : ℚ) * 2 ^ (lb : Int) := by
          apply mul_le_mul_of_nonneg_left b1q.le; positivity
  unfold ilog2
  simp only [hna]
  split
  · rename_i h
    refine ⟨h, ?_⟩
    rw [pow2_eq]; exact hup
  · rename_i h
    push_neg at h
    constructor
    · rw [pow2_eq]; exact hlo
    · have : ((la : Int) - (lb : Int) - 1 + 1) = (la : Int) - lb := by omega
      rw [this]; exact h

theorem ilog2_unique (x : ℚ) (hx : 0 < x) (k : Int) (h1 : pow2 k ≤ x) (h2 : x < pow2 (k + 1)) :
    ilog2 x = k := by
  obtain ⟨s1, s2⟩ := ilog2_spec x hx
  have a : ilog2 x < k + 1 := pow2_lt_pow2_iff.mp (lt_of_le_of_lt s1 h2)
  have b : k < ilog2 x + 1 := pow2_lt_pow2_iff.mp (lt_of_le_of_lt h1 s2)
  omega

theorem ilog2_mono (x y : ℚ) (hx : 0 < x) (hxy : x ≤ y) : ilog2 x ≤ ilog2 y := by
  obtain ⟨s1, _⟩ := ilog2_spec x hx
  obtain ⟨_, t2⟩ := ilog2_spec y (lt_of_lt_of_le hx hxy)
  have : ilog2 x < ilog2 y + 1 := pow2_lt_pow2_iff.mp (lt_of_le_of_lt (le_trans s1 hxy) t2)
  omega

theorem round_half_even_le (y : ℚ) (n : Int) (h : y ≤ n) : round_half_even y ≤ n := by
  unfold round_half_even
  have hf : ⌊y⌋ ≤ n := by
    have := Int.floor_mono h
    simpa using this
  rcases eq_or_lt_of_le hf with he | hl
  · have hy : y = n := le_antisymm h (by rw [← he]; exact Int.floor_le y)
    subst hy
    simp
  · split
    · exact hf
    · split
      · omega
      · split <;> omega

theorem le_round_half_even (y : ℚ) (n : Int) (h : (n : ℚ) ≤ y) : n ≤ round_half_even y := by
  unfold round_half_even
  have hf : n ≤ ⌊y⌋ := Int.le_floor.mpr h
  split
  · exact hf
  · split
    · omega
    · split <;> omega

theorem round_half_even_int (n : Int) : round_half_even (n : ℚ) = n :=
  le_antisymm (round_half_even_le _ n le_rfl) (le_round_half_even _ n le_rfl)

theorem round_half_even_same_floor (f : Int) (d e : ℚ) (h : d ≤ e) :
    (if d < 1 / 2 then f else if 1 / 2 < d then f + 1 else if f % 2 = 0 then f else f + 1) ≤
      (if e < 1 / 2 then f else if 1 / 2 < e then f + 1 else if f % 2 = 0 then f else f + 1) := by
  by_cases h1 : d < 1 / 2
  · rw [if_pos h1]
    split
    · exact le_rfl
    · split
      · omega
      · split <;> omega
  · have h1' : ¬ e < 1 / 2 := by push_neg at h1 ⊢; linarith
    rw [if_neg h1, if_neg h1']
    by_cases h2 : 1 / 2 < d
    · have h2' : 1 / 2 < e := by linarith
      rw [if_pos h2, if_pos h2']
    · rw [if_neg h2]
      by_cases h3 : 1 / 2 < e
      · rw [if_pos h3]; split <;> omega
      · rw [if_neg h3]

theorem round_half_even_mono (y z : ℚ) (h : y ≤ z) : round_half_even y ≤ round_half_even z := by
  have hf : ⌊y⌋ ≤ ⌊z⌋ := Int.floor_mono h
  rcases eq_or_lt_of_le hf with he | hl
  · unfold round_half_even
    have hd : y - ⌊z⌋ ≤ z - ⌊z⌋ := by linarith
    rw [he]
    exact round_half_even_same_floor ⌊z⌋ _ _ hd
  · calc round_half_even y ≤ ⌊z⌋ := round_half_even_le y _ (by
          have h1 : ⌊y⌋ + 1 ≤ ⌊z⌋ := hl
          have h2 : y < ⌊y⌋ + 1 := Int.lt_floor_add_one y
          have h3 : ((⌊y⌋ + 1 : Int) : ℚ) ≤ (⌊z⌋ : ℚ) := by exact_mod_cast h1
          push_cast at h3
          linarith)
      _ ≤ round_half_even z := le_round_half_even z _ (Int.floor_le z)

theorem round_half_even_error (y : ℚ) : |(round_half_even y : ℚ) - y| ≤ 1 / 2 := by
  have h1 := Int.floor_le y
  have h2 := Int.lt_floor_add_one y
  unfold round_half_even
  rw [abs_le]
  split
  · constructor <;> linarith
  · rename_i h3
    push_neg at h3
    split
    · push_cast; constructor <;> linarith
    · rename_i h4
      push_neg at h4
      split
      · constructor <;> linarith
      · push_cast; constructor <;> linarith

theorem exponent_mono (x y : ℚ) (hx : 0 < x) (hxy : x ≤ y) : exponent x ≤ exponent y := by
  unfold exponent
  have := ilog2_mono x y hx hxy
  omega

/-- A multiple of two to the power K, with K at least e, is an integer multiple
of two to the power e. -/
theorem multiple_of_pow2 (n : Int) (K e : Int) (h : e ≤ K) :
    ∃ m : Int, (n : ℚ) * pow2 K = (m : ℚ) * pow2 e := by
  refine ⟨n * 2 ^ (K - e).toNat, ?_⟩
  have hk : K = e + ((K - e).toNat : Int) := by omega
  conv_lhs => rw [hk, pow2_add]
  have : pow2 ((K - e).toNat : Int) = ((2 ^ (K - e).toNat : Int) : ℚ) := by
    rw [pow2_eq, zpow_natCast]; push_cast; rfl
  rw [this]; push_cast; ring

theorem round_pos_le_multiple (x : ℚ) (n K : Int) (hK : exponent x ≤ K)
    (h : x ≤ (n : ℚ) * pow2 K) : round_pos x ≤ (n : ℚ) * pow2 K := by
  obtain ⟨m, hm⟩ := multiple_of_pow2 n K (exponent x) hK
  have hp := pow2_pos (exponent x)
  unfold round_pos
  rw [hm] at h ⊢
  apply mul_le_mul_of_nonneg_right _ hp.le
  have : round_half_even (x / pow2 (exponent x)) ≤ m :=
    round_half_even_le _ m (by rw [div_le_iff₀ hp]; exact h)
  exact_mod_cast this

theorem multiple_le_round_pos (x : ℚ) (n K : Int) (hK : exponent x ≤ K)
    (h : (n : ℚ) * pow2 K ≤ x) : (n : ℚ) * pow2 K ≤ round_pos x := by
  obtain ⟨m, hm⟩ := multiple_of_pow2 n K (exponent x) hK
  have hp := pow2_pos (exponent x)
  unfold round_pos
  rw [hm] at h ⊢
  apply mul_le_mul_of_nonneg_right _ hp.le
  have : m ≤ round_half_even (x / pow2 (exponent x)) :=
    le_round_half_even _ m (by rw [le_div_iff₀ hp]; exact h)
  exact_mod_cast this

theorem round_pos_nonneg (x : ℚ) (hx : 0 ≤ x) : 0 ≤ round_pos x := by
  have := multiple_le_round_pos x 0 (exponent x) le_rfl (by simpa using hx)
  simpa using this

/-- A positive multiple of two to the power K at least the exponent is left
unchanged by rounding. -/
theorem round_pos_multiple (x : ℚ) (n K : Int) (hK : exponent x ≤ K)
    (h : x = (n : ℚ) * pow2 K) : round_pos x = x := by
  apply le_antisymm
  · rw [h]; exact round_pos_le_multiple _ n K (h ▸ hK) le_rfl
  · conv_lhs => rw [h]
    exact multiple_le_round_pos x n K hK h.ge

theorem round_pos_mono (x y : ℚ) (hx : 0 < x) (hxy : x ≤ y) : round_pos x ≤ round_pos y := by
  have hy : 0 < y := lt_of_lt_of_le hx hxy
  have he := exponent_mono x y hx hxy
  rcases eq_or_lt_of_le he with heq | hlt
  · unfold round_pos
    rw [heq]
    apply mul_le_mul_of_nonneg_right _ (pow2_pos _).le
    have : round_half_even (x / pow2 (exponent y)) ≤ round_half_even (y / pow2 (exponent y)) :=
      round_half_even_mono _ _ (div_le_div_of_nonneg_right hxy (pow2_pos _).le)
    exact_mod_cast this
  · -- the power of two between x and y is a multiple for both
    obtain ⟨_, sx⟩ := ilog2_spec x hx
    obtain ⟨sy, _⟩ := ilog2_spec y hy
    have hEy : exponent y = ilog2 y - 52 := by
      unfold exponent at hlt ⊢
      omega
    have hlog : ilog2 x + 1 ≤ ilog2 y := by
      unfold exponent at hlt
      omega
    have hxB : x ≤ ((1 : Int) : ℚ) * pow2 (ilog2 y) := by
      have := pow2_le_pow2 hlog
      simp only [Int.cast_one, one_mul]
      linarith
    have hBy : ((1 : Int) : ℚ) * pow2 (ilog2 y) ≤ y := by
      simpa using sy
    calc round_pos x ≤ ((1 : Int) : ℚ) * pow2 (ilog2 y) :=
          round_pos_le_multiple x 1 (ilog2 y) (by unfold exponent at hlt ⊢; omega) hxB
      _ ≤ round_pos y := multiple_le_round_pos y 1 (ilog2 y) (by omega) hBy

theorem round_nearest_zero : round_nearest 0 = 0 := by simp [round_nearest]

theorem round_nearest_pos (x : ℚ) (hx : 0 < x) : round_nearest x = round_pos x := by
  unfold round_nearest
  rw [if_neg hx.ne', if_neg (not_lt.mpr hx.le)]

theorem round_nearest_neg_arg (x : ℚ) (hx : x < 0) : round_nearest x = - round_pos (-x) := by
  unfold round_nearest
  rw [if_neg hx.ne, if_pos hx]

theorem round_nearest_neg (x : ℚ) : round_nearest (-x) = - round_nearest x := by
  rcases lt_trichotomy x 0 with h | h | h
  · rw [round_nearest_pos (-x) (by linarith), round_nearest_neg_arg x h, neg_neg]
  · subst h; simp [round_nearest_zero]
  · rw [round_nearest_neg_arg (-x) (by linarith), round_nearest_pos x h, neg_neg]

theorem round_nearest_nonneg (x : ℚ) (hx : 0 ≤ x) : 0 ≤ round_nearest x := by
  rcases eq_or_lt_of_le hx with h | h
  · rw [← h, round_nearest_zero]
  · rw [round_nearest_pos x h]; exact round_pos_nonneg x hx

theorem round_nearest_nonpos (x : ℚ) (hx : x ≤ 0) : round_nearest x ≤ 0 := by
  have := round_nearest_nonneg (-x) (by linarith)
  rw [round_nearest_neg] at this
  linarith

/-- Rounding to nearest is monotone. -/
theorem round_nearest_mono (x y : ℚ) (h : x ≤ y) : round_nearest x ≤ round_nearest y := by
  rcases lt_trichotomy x 0 with hx | hx | hx
  · rcases lt_or_le y 0 with hy | hy
    · rw [round_nearest_neg_arg x hx, round_nearest_neg_arg y hy]
      have := round_pos_mono (-y) (-x) (by linarith) (by linarith)
      linarith
    · exact le_trans (round_nearest_nonpos x hx.le) (round_nearest_nonneg y hy)
  · subst hx
    rw [round_nearest_zero]; exact round_nearest_nonneg y h
  · rw [round_nearest_pos x hx, round_nearest_pos y (lt_of_lt_of_le hx h)]
    exact round_pos_mono x y hx h

/-- Twice a number that rounding leaves unchanged is left unchanged. -/
theorem round_nearest_double (x : ℚ) (h : round_nearest x = x) :
    round_nearest (2 * x) = 2 * x := by
  have key : ∀ y : ℚ, 0 < y → round_pos y = y → round_pos (2 * y) = 2 * y := by
    intro y hy hfix
    obtain ⟨s1, s2⟩ := ilog2_spec y hy
    have hlog : ilog2 (2 * y) = ilog2 y + 1 := by
      apply ilog2_unique _ (by linarith)
      · rw [add_comm, pow2_add]
        have : pow2 1 = 2 := by rw [pow2_eq]; norm_num
        rw [this]; linarith
      · rw [add_comm (ilog2 y + 1) 1, pow2_add]
        have : pow2 1 = 2 := by rw [pow2_eq]; norm_num
        rw [this]; linarith
    apply round_pos_multiple _ (round_half_even (y / pow2 (exponent y))) (exponent y + 1)
    · rw [show exponent (2 * y) = max (ilog2 (2 * y) - 52) (-1074) from rfl, hlog,
        show exponent y = max (ilog2 y - 52) (-1074) from rfl]
      omega
    · rw [pow2_add]
      have : pow2 1 = 2 := by rw [pow2_eq]; norm_num
      rw [this]
      have hy2 : y = (round_half_even (y / pow2 (exponent y)) : ℚ) * pow2 (exponent y) := by
        conv_lhs => rw [← hfix]
        rfl
      linarith
  rcases lt_trichotomy x 0 with hx | hx | hx
  · rw [round_nearest_neg_arg x hx] at h
    have h2 : round_pos (-x) = -x := by linarith
    have := key (-x) (by linarith) h2
    rw [round_nearest_neg_arg (2 * x) (by linarith)]
    have e : -(2 * x) = 2 * -x := by ring
    rw [e, this]; ring
  · subst hx; simp [round_nearest_zero]
  · rw [round_nearest_pos x hx] at h
    rw [round_nearest_pos (2 * x) (by linarith)]
    exact key x hx h

theorem round_pos_error (x : ℚ) (hx : 0 < x) :
    |round_pos x - x| ≤ pow2 (-53) * x + pow2 (-1075) := by
  have hp := pow2_pos (exponent x)
  have herr := round_half_even_error (x / pow2 (exponent x))
  have h1 : |round_pos x - x| ≤ pow2 (exponent x) / 2 := by
    have e : round_pos x - x =
        ((round_half_even (x / pow2 (exponent x)) : ℚ) - x / pow2 (exponent x)) *
          pow2 (exponent x) := by
      unfold round_pos; field_simp
    rw [e, abs_mul, abs_of_pos hp]
    calc _ ≤ 1 / 2 * pow2 (exponent x) := mul_le_mul_of_nonneg_right herr hp.le
      _ = pow2 (exponent x) / 2 := by ring
  have h2 : pow2 (exponent x) / 2 ≤ pow2 (-53) * x + pow2 (-1075) := by
    obtain ⟨s1, _⟩ := ilog2_spec x hx
    have half : ∀ k : Int, pow2 k / 2 = pow2 (k - 1) := by
      intro k
      have : pow2 k = pow2 (k - 1) * pow2 1 := by rw [← pow2_add]; congr 1; omega
      have h1 : pow2 1 = 2 := by rw [pow2_eq]; norm_num
      rw [this, h1]; ring
    rw [half]
    rcases le_total (ilog2 x - 52) (-1074) with h | h
    · have : exponent x = -1074 := by unfold exponent; omega
      rw [this]
      have : (0 : ℚ) ≤ pow2 (-53) * x := mul_nonneg (pow2_pos _).le hx.le
      have e : (-1074 - 1 : Int) = -1075 := by norm_num
      rw [e]; linarith
    · have : exponent x = ilog2 x - 52 := by unfold exponent; omega
      rw [this]
      have e : ilog2 x - 52 - 1 = -53 + ilog2 x := by omega
      rw [e, pow2_add]
      have : pow2 (-53) * pow2 (ilog2 x) ≤ pow2 (-53) * x :=
        mul_le_mul_of_nonneg_left s1 (pow2_pos _).le
      have := pow2_pos (-1075)
      linarith
  exact le_trans h1 h2

/-- The error of rounding to nearest is at most 2^-53 times the magnitude, plus
2^-1075 in the subnormal range. -/
theorem round_nearest_error (x : ℚ) :
    |round_nearest x - x| ≤ pow2 (-53) * |x| + pow2 (-1075) := by
  rcases lt_trichotomy x 0 with hx | hx | hx
  · rw [round_nearest_neg_arg x hx, abs_of_neg hx]
    have := round_pos_error (-x) (by linarith)
    have e : -round_pos (-x) - x = -(round_pos (-x) - -x) := by ring
    rw [e, abs_neg]; exact this
  · subst hx; simp [round_nearest_zero]; exact (pow2_pos _).le
  · rw [round_nearest_pos x hx, abs_of_pos hx]; exact round_pos_error x hx

theorem Double.round_eq_finite (x y : ℚ) (h : Double.round x = Double.finite y) :
    round_nearest x = y ∧ -pow2 1024 < y ∧ y < pow2 1024 := by
  unfold Double.round at h
  split at h
  · cases h
  · split at h
    · cases h
    · rename_i h1 h2
      injection h with h
      subst h
      exact ⟨rfl, not_le.mp h2, not_le.mp h1⟩

theorem Double.round_of_lt (x : ℚ) (h1 : -pow2 1024 < round_nearest x)
    (h2 : round_nearest x < pow2 1024) : Double.round x = Double.finite (round_nearest x) := by
  unfold Double.round
  rw [if_neg (not_le.mpr h2), if_neg (not_le.mpr h1)]

theorem is_double_iff (x : ℚ) :
    is_double x ↔ round_nearest x = x ∧ -pow2 1024 < x ∧ x < pow2 1024 := by
  constructor
  · intro h; exact Double.round_eq_finite x x h
  · rintro ⟨h1, h2, h3⟩
    unfold is_double
    rw [Double.round_of_lt x (by rw [h1]; exact h2) (by rw [h1]; exact h3), h1]

theorem round_two : Double.round 2 = Double.finite 2 := by decide!

theorem ema_alpha : Ema.ALPHA = Double.finite (3602879701896397 / 36028797018963968) := by
  decide!

theorem ema_one_minus_alpha :
    Double.sub (Double.round 1) Ema.ALPHA =
      Double.finite (8106479329266893 / 9007199254740992) := by
  decide!

theorem avg_filter_finite (p r : ℚ) :
    Avg.low_pass_filter (Double.finite p) (Double.finite r) =
      Double.div (Double.round (p + r)) (Double.finite 2) := by
  simp only [Avg.low_pass_filter, Double.add, round_two]

theorem ema_filter_finite (p r : ℚ) :
    Ema.low_pass_filter (Double.finite p) (Double.finite r) =
      Double.add (Double.round (p * (8106479329266893 / 9007199254740992)))
        (Double.round (r * (3602879701896397 / 36028797018963968))) := by
  unfold Ema.low_pass_filter
  rw [ema_one_minus_alpha, ema_alpha]
  rfl

/-- Rounded sum, halved and rounded, of two numbers between two binary64
numbers lo and hi stays between lo and hi. -/
theorem round_mean_between (lo hi p r : ℚ) (hlo : round_nearest lo = lo)
    (hhi : round_nearest hi = hi) (hp1 : lo ≤ p) (hp2 : p ≤ hi) (hr1 : lo ≤ r) (hr2 : r ≤ hi) :
    (2 * lo ≤ round_nearest (p + r) ∧ round_nearest (p + r) ≤ 2 * hi) ∧
      lo ≤ round_nearest (round_nearest (p + r) / 2) ∧
      round_nearest (round_nearest (p + r) / 2) ≤ hi := by
  have h1 : 2 * lo ≤ round_nearest (p + r) := by
    rw [← round_nearest_double lo hlo]
    exact round_nearest_mono _ _ (by linarith)
  have h2 : round_nearest (p + r) ≤ 2 * hi := by
    rw [← round_nearest_double hi hhi]
    exact round_nearest_mono _ _ (by linarith)
  refine ⟨⟨h1, h2⟩, ?_, ?_⟩
  · conv_lhs => rw [← hlo]
    exact round_nearest_mono _ _ (by linarith)
  · conv_rhs => rw [← hhi]
    exact round_nearest_mono _ _ (by linarith)

theorem div_two_finite (s : ℚ) :
    Double.div (Double.finite s) (Double.finite 2) = Double.round (s / 2) := by
  simp [Double.div]

theorem Double.round_cases (x : ℚ) :
    Double.round x = Double.pos_inf ∨ Double.round x = Double.neg_inf ∨
      Double.round x = Double.finite (round_nearest x) := by
  unfold Double.round
  split
  · exact Or.inl rfl
  · split
    · exact Or.inr (Or.inl rfl)
    · exact Or.inr (Or.inr rfl)

/-- A finite result of the moving average is the rounded sum of the two rounded
products. -/
theorem ema_filter_value (p r v : ℚ)
    (h : Ema.low_pass_filter (Double.finite p) (Double.finite r) = Double.finite v) :
    v = round_nearest (round_nearest (p * (8106479329266893 / 9007199254740992)) +
      round_nearest (r * (3602879701896397 / 36028797018963968))) := by
  rw [ema_filter_finite] at h
  rcases Double.round_cases (p * (8106479329266893 / 9007199254740992)) with ha | ha | ha <;>
    rcases Double.round_cases (r * (3602879701896397 / 36028797018963968)) with hb | hb | hb <;>
    rw [ha, hb] at h <;> simp only [Double.add] at h <;> try cases h
  exact (Double.round_eq_finite _ _ h).1.symm

/-- The rounded sum of the two rounded products lies within a rounding error
of the interval spanned by the two arguments. -/
theorem ema_value_near_between (p r : ℚ) :
    min p r - (pow2 (-51) * max |p| |r| + pow2 (-1073)) ≤
        round_nearest (round_nearest (p * (8106479329266893 / 9007199254740992)) +
          round_nearest (r * (3602879701896397 / 36028797018963968))) ∧
      round_nearest (round_nearest (p * (8106479329266893 / 9007199254740992)) +
          round_nearest (r * (3602879701896397 / 36028797018963968))) ≤
        max p r + (pow2 (-51) * max |p| |r| + pow2 (-1073)) := by
  set a := round_nearest (p * (8106479329266893 / 9007199254740992)) with ha
  set b := round_nearest (r * (3602879701896397 / 36028797018963968)) with hb
  set v := round_nearest (a + b) with hv
  set M := max |p| |r| with hM
  set η := pow2 (-1075) with hη
  have hu : pow2 (-53) = 1 / 2 ^ 53 := by rw [pow2_eq]; norm_num
  have hu51 : pow2 (-51) = 1 / 2 ^ 51 := by rw [pow2_eq]; norm_num
  have h1073 : pow2 (-1073) = 4 * η := by
    have : pow2 (-1073) = pow2 2 * pow2 (-1075) := by rw [← pow2_add]; congr 1
    rw [this]
    have : pow2 2 = 4 := by rw [pow2_eq]; norm_num
    rw [this]
  have hηpos : 0 < η := pow2_pos _
  have hpM : |p| ≤ M := le_max_left _ _
  have hrM : |r| ≤ M := le_max_right _ _
  have hM0 : 0 ≤ M := le_trans (abs_nonneg p) hpM
  have ea := round_nearest_error (p * (8106479329266893 / 9007199254740992))
  have eb := round_nearest_error (r * (3602879701896397 / 36028797018963968))
  have ev := round_nearest_error (a + b)
  rw [← ha] at ea
  rw [← hb] at eb
  rw [← hv] at ev
  rw [abs_mul, abs_of_pos (by norm_num : (0 : ℚ) < 8106479329266893 / 9007199254740992), hu]
    at ea
  rw [abs_mul, abs_of_pos (by norm_num : (0 : ℚ) < 3602879701896397 / 36028797018963968), hu]
    at eb
  rw [hu] at ev
  have ea' := abs_le.mp ea
  have eb' := abs_le.mp eb
  have hp' := abs_le.mp hpM
  have hr' := abs_le.mp hrM
  have hab : |a + b| ≤ M * (8106479329266893 / 9007199254740992) +
      (1 / 2 ^ 53 * (M * (8106479329266893 / 9007199254740992)) + η) +
      (M * (3602879701896397 / 36028797018963968) +
        (1 / 2 ^ 53 * (M * (3602879701896397 / 36028797018963968)) + η)) := by
    rw [abs_le]
    constructor <;> linarith [ea'.1, ea'.2, eb'.1, eb'.2, hp'.1, hp'.2, hr'.1, hr'.2]
  have ev2 : |v - (a + b)| ≤ 1 / 2 ^ 53 * (M * (8106479329266893 / 9007199254740992) +
      (1 / 2 ^ 53 * (M * (8106479329266893 / 9007199254740992)) + η) +
      (M * (3602879701896397 / 36028797018963968) +
        (1 / 2 ^ 53 * (M * (3602879701896397 / 36028797018963968)) + η))) + η := by
    have : (1 : ℚ) / 2 ^ 53 * |a + b| ≤ 1 / 2 ^ 53 * (M * (8106479329266893 / 9007199254740992) +
      (1 / 2 ^ 53 * (M * (8106479329266893 / 9007199254740992)) + η) +
      (M * (3602879701896397 / 36028797018963968) +
        (1 / 2 ^ 53 * (M * (3602879701896397 / 36028797018963968)) + η))) :=
      mul_le_mul_of_nonneg_left hab (by norm_num)
    linarith
  have ev' := abs_le.mp ev2
  have hmin1 : min p r ≤ p := min_le_left _ _
  have hmin2 : min p r ≤ r := min_le_right _ _
  have hmax1 : p ≤ max p r := le_max_left _ _
  have hmax2 : r ≤ max p r := le_max_right _ _
  have hmaxM : max p r ≤ M := max_le (le_trans (le_abs_self p) hpM) (le_trans (le_abs_self r) hrM)
  have hminM : -M ≤ min p r := le_min (by linarith [hp'.1]) (by linarith [hr'.1])
  rw [hu51, h1073]
  constructor
  · linarith [ea'.1, eb'.1, ev'.1]
  · linarith [ea'.2, eb'.2, ev'.2]

/-! ### Claims on the filters -/

/-- Counterexample to C5 as stated: DBL_MAX is a double, and the running mean
of DBL_MAX and DBL_MAX is +infinity (the sum overflows), above the greater of
its arguments. -/
theorem avg_filter_overflow :
    is_double DBL_MAX ∧
      Avg.low_pass_filter (Double.finite DBL_MAX) (Double.finite DBL_MAX) = Double.pos_inf := by
  decide!

/-- C5, as amended: for every pair of finite doubles (previous, raw) whose sum
does not overflow, the running mean filter returns the sum rounded to
binary64, halved and rounded again, which is (previous + raw) / 2 itself when
the sum and its half need no rounding; the result lies between
min(previous, raw) and max(previous, raw). -/
theorem avg_filter_rounded_mean_and_bounds (previous raw s : ℚ) (hp : is_double previous)
    (hr : is_double raw)
    (hs : Double.add (Double.finite previous) (Double.finite raw) = Double.finite s) :
    ∃ v, Avg.low_pass_filter (Double.finite previous) (Double.finite raw) = Double.finite v ∧
      s = round_nearest (previous + raw) ∧ v = round_nearest (s / 2) ∧
      (s = previous + raw → is_double ((previous + raw) / 2) → v = (previous + raw) / 2) ∧
      min previous raw ≤ v ∧ v ≤ max previous raw := by
  obtain ⟨hs1, hs2, hs3⟩ := Double.round_eq_finite _ _ (show Double.round (previous + raw) =
    Double.finite s from hs)
  obtain ⟨p1, p2, p3⟩ := (is_double_iff previous).mp hp
  obtain ⟨r1, r2, r3⟩ := (is_double_iff raw).mp hr
  have hlo : round_nearest (min previous raw) = min previous raw := by
    rcases min_choice previous raw with h | h
    · rw [h]; exact p1
    · rw [h]; exact r1
  have hhi : round_nearest (max previous raw) = max previous raw := by
    rcases max_choice previous raw with h | h
    · rw [h]; exact p1
    · rw [h]; exact r1
  obtain ⟨_, v1, v2⟩ := round_mean_between (min previous raw) (max previous raw) previous raw
    hlo hhi (min_le_left _ _) (le_max_left _ _) (min_le_right _ _) (le_max_right _ _)
  rw [hs1] at v1 v2
  have hlo2 : -pow2 1024 < min previous raw := lt_min p2 r2
  have hhi2 : max previous raw < pow2 1024 := max_lt p3 r3
  have hv : Double.round (s / 2) = Double.finite (round_nearest (s / 2)) :=
    Double.round_of_lt _ (by linarith) (by linarith)
  refine ⟨_, ?_, hs1.symm, rfl, ?_, v1, v2⟩
  · rw [avg_filter_finite, show Double.round (previous + raw) = Double.finite s from hs,
      div_two_finite, hv]
  · intro he hd
    rw [he]
    exact ((is_double_iff _).mp hd).1

/-- Witness for C5, as amended: the doubles 1 and 2, whose sum 3 and mean 3/2
need no rounding. -/
theorem avg_filter_rounded_mean_and_bounds_witness :
    ∃ v, Avg.low_pass_filter (Double.finite 1) (Double.finite 2) = Double.finite v ∧
      (3 : ℚ) = round_nearest (1 + 2) ∧ v = round_nearest (3 / 2) ∧
      ((3 : ℚ) = 1 + 2 → is_double (((1 : ℚ) + 2) / 2) → v = (1 + 2) / 2) ∧
      min 1 2 ≤ v ∧ v ≤ max 1 2 :=
  avg_filter_rounded_mean_and_bounds 1 2 3 (by decide!) (by decide!) (by decide!)

/-- C6: starting from 0 and feeding 1, 2, 3, 4, 5 through the exponential moving
average filter in binary64 arithmetic, the five successive outputs are the
doubles listed, each within 0.001 of 0.1, 0.29, 0.561, 0.9049 and 1.31441
respectively. -/
theorem ema_filter_sequence :
    filter_sequence Ema.low_pass_filter (Double.finite 0)
        [Double.finite 1, Double.finite 2, Double.finite 3, Double.finite 4, Double.finite 5] =
      [Double.finite (3602879701896397 / 36028797018963968),
       Double.finite (326510972984361 / 1125899906842624),
       Double.finite (2526519390954849 / 4503599627370496),
       Double.finite (8150614605615125 / 9007199254740992),
       Double.finite (2959788193106027 / 2251799813685248)] ∧
      |(3602879701896397 / 36028797018963968 : ℚ) - 1 / 10| ≤ 1 / 1000 ∧
      |(326510972984361 / 1125899906842624 : ℚ) - 29 / 100| ≤ 1 / 1000 ∧
      |(2526519390954849 / 4503599627370496 : ℚ) - 561 / 1000| ≤ 1 / 1000 ∧
      |(8150614605615125 / 9007199254740992 : ℚ) - 9049 / 10000| ≤ 1 / 1000 ∧
      |(2959788193106027 / 2251799813685248 : ℚ) - 131441 / 100000| ≤ 1 / 1000 := by
  refine ⟨by decide!, ?_, ?_, ?_, ?_, ?_⟩ <;> rw [abs_le] <;> constructor <;> norm_num

/-- Counterexample to C7 as stated: 1.625 is a double, and the moving average
of 1.625 and 1.625 is 1.625 + 2^-52, above the greater of its arguments. -/
theorem ema_filter_above_max :
    is_double (13 / 8) ∧
      Ema.low_pass_filter (Double.finite (13 / 8)) (Double.finite (13 / 8)) =
        Double.finite (7318349394477057 / 4503599627370496) ∧
      (7318349394477057 / 4503599627370496 : ℚ) = 13 / 8 + 1 / 2 ^ 52 ∧
      max (13 / 8 : ℚ) (13 / 8) < 7318349394477057 / 4503599627370496 := by
  refine ⟨by decide!, by decide!, by norm_num, by norm_num⟩

/-- C7, as amended: with ALPHA the double nearest 0.1 and 1.0 - ALPHA the
double nearest 0.9, a finite result of the moving average filter is
previous * (1.0 - ALPHA) + raw * ALPHA with both products and the sum rounded to
binary64, and it lies within 2^-51 * max(|previous|, |raw|) + 2^-1073 of the
interval from min(previous, raw) to max(previous, raw). -/
theorem ema_filter_formula_and_near_bounds (previous raw v : ℚ)
    (h : Ema.low_pass_filter (Double.finite previous) (Double.finite raw) = Double.finite v) :
    Ema.ALPHA = Double.finite (3602879701896397 / 36028797018963968) ∧
      Double.sub (Double.round 1) Ema.ALPHA =
        Double.finite (8106479329266893 / 9007199254740992) ∧
      v = round_nearest (round_nearest (previous * (8106479329266893 / 9007199254740992)) +
        round_nearest (raw * (3602879701896397 / 36028797018963968))) ∧
      min previous raw - (pow2 (-51) * max |previous| |raw| + pow2 (-1073)) ≤ v ∧
      v ≤ max previous raw + (pow2 (-51) * max |previous| |raw| + pow2 (-1073)) := by
  have hv := ema_filter_value previous raw v h
  obtain ⟨h1, h2⟩ := ema_value_near_between previous raw
  rw [← hv] at h1 h2
  exact ⟨ema_alpha, ema_one_minus_alpha, hv, h1, h2⟩

/-- Witness for C7, as amended: the pair (1.625, 1.625) of the counterexample. -/
theorem ema_filter_formula_and_near_bounds_witness :
    Ema.ALPHA = Double.finite (3602879701896397 / 36028797018963968) ∧
      Double.sub (Double.round 1) Ema.ALPHA =
        Double.finite (8106479329266893 / 9007199254740992) ∧
      (7318349394477057 / 4503599627370496 : ℚ) =
        round_nearest (round_nearest (13 / 8 * (8106479329266893 / 9007199254740992)) +
          round_nearest (13 / 8 * (3602879701896397 / 36028797018963968))) ∧
      min (13 / 8) (13 / 8) - (pow2 (-51) * max |(13 / 8 : ℚ)| |(13 / 8 : ℚ)| + pow2 (-1073)) ≤
        (7318349394477057 / 4503599627370496 : ℚ) ∧
      (7318349394477057 / 4503599627370496 : ℚ) ≤
        max (13 / 8) (13 / 8) + (pow2 (-51) * max |(13 / 8 : ℚ)| |(13 / 8 : ℚ)| + pow2 (-1073)) :=
  ema_filter_formula_and_near_bounds (13 / 8) (13 / 8) (7318349394477057 / 4503599627370496)
    (by decide!)
/-! ### The filtered value stays in the span of its start and the readings -/

theorem le_span_hi (rs : List ℚ) :
    ∀ v : ℚ, v ≤ span_hi v rs ∧ ∀ x ∈ rs, x ≤ span_hi v rs := by
  induction rs with
  | nil => intro v; simp [span_hi]
  | cons y rs ih =>
    intro v
    obtain ⟨h1, h2⟩ := ih (max v y)
    have e : span_hi v (y :: rs) = span_hi (max v y) rs := rfl
    rw [e]
    refine ⟨le_trans (le_max_left _ _) h1, ?_⟩
    intro x hx
    rcases List.mem_cons.mp hx with h | h
    · rw [h]; exact le_trans (le_max_right _ _) h1
    · exact h2 x h

theorem span_lo_mem (rs : List ℚ) : ∀ v : ℚ, span_lo v rs = v ∨ span_lo v rs ∈ rs := by
  induction rs with
  | nil => intro v; exact Or.inl rfl
  | cons y rs ih =>
    intro v
    have e : span_lo v (y :: rs) = span_lo (min v y) rs := rfl
    rw [e]
    rcases ih (min v y) with h | h
    · rcases min_choice v y with h' | h'
      · left; rw [h, h']
      · right; rw [h, h']; exact List.mem_cons_self _ _
    · right; exact List.mem_cons_of_mem _ h

theorem span_hi_mem (rs : List ℚ) : ∀ v : ℚ, span_hi v rs = v ∨ span_hi v rs ∈ rs := by
  induction rs with
  | nil => intro v; exact Or.inl rfl
  | cons y rs ih =>
    intro v
    have e : span_hi v (y :: rs) = span_hi (max v y) rs := rfl
    rw [e]
    rcases ih (max v y) with h | h
    · rcases max_choice v y with h' | h'
      · left; rw [h, h']
      · right; rw [h, h']; exact List.mem_cons_self _ _
    · right; exact List.mem_cons_of_mem _ h

theorem le_span_lo (lo : ℚ) (rs : List ℚ) :
    ∀ v : ℚ, lo ≤ v → (∀ x ∈ rs, lo ≤ x) → lo ≤ span_lo v rs := by
  intro v hv hx
  rcases span_lo_mem rs v with h | h
  · rw [h]; exact hv
  · exact hx _ h

theorem span_hi_le (hi : ℚ) (rs : List ℚ) :
    ∀ v : ℚ, v ≤ hi → (∀ x ∈ rs, x ≤ hi) → span_hi v rs ≤ hi := by
  intro v hv hx
  rcases span_hi_mem rs v with h | h
  · rw [h]; exact hv
  · exact hx _ h

theorem readings_from_finite (r : Nat → ℚ) (start k : Nat) :
    readings_from (finite_readings r) start k = (readings_from r start k).map Double.finite := by
  simp [readings_from, finite_readings]

theorem mem_readings_from {α : Type} (readings : Nat → α) (start k : Nat) (x : α)
    (h : x ∈ readings_from readings start k) : ∃ j, j < k ∧ x = readings (start + j) := by
  simp only [readings_from, List.mem_map, List.mem_range] at h
  obtain ⟨j, hj, rfl⟩ := h
  exact ⟨j, hj, rfl⟩

/-! ### The values and states reported by the loop -/

theorem reported_value_iteration (t : Target) (s : State) (v : Double) :
    List.filterMap reported_value (iteration_events t s v) = [v] := by
  cases t <;> rfl

theorem reported_state_iteration (t : Target) (s : State) (v : Double) :
    List.filterMap reported_state (iteration_events t s v) = [s] := by
  cases t <;> rfl

theorem reported_values_iterations (t : Target) (s : Nat → State) (v : Nat → Double) (k : Nat) :
    reported_values ((List.range k).flatMap (fun j => iteration_events t (s j) (v j))) =
      (List.range k).map v := by
  induction k with
  | zero => rfl
  | succ k ih =>
    unfold reported_values at ih ⊢
    rw [List.range_succ, List.flatMap_append, List.filterMap_append, ih]
    simp [reported_value_iteration]

theorem reported_states_iterations (t : Target) (s : Nat → State) (v : Nat → Double) (k : Nat) :
    reported_states ((List.range k).flatMap (fun j => iteration_events t (s j) (v j))) =
      (List.range k).map s := by
  induction k with
  | zero => rfl
  | succ k ih =>
    unfold reported_states at ih ⊢
    rw [List.range_succ, List.flatMap_append, List.filterMap_append, ih]
    simp [reported_state_iteration]

/-- The filtered values reported by run(n), added to those reported before: the
fold of the filter over the first 1, 2, ..., n readings. -/
theorem reported_values_after (t : Target) (filter : Double → Double → Double) (readings : Nat → Double)
    (k : Nat) (w : World) :
    reported_values (after_iterations t filter readings k w).out =
      reported_values w.out ++ (List.range k).map (fun j =>
        List.foldl filter w.loop.value (readings_from readings w.reads (j + 1))) := by
  have h := reported_values_iterations t (fun j => next_state^[j + 1] w.loop.state)
    (fun j => List.foldl filter w.loop.value (readings_from readings w.reads (j + 1))) k
  unfold reported_values at h ⊢
  simp only [after_iterations, List.filterMap_append, h]

/-- The states reported by run(n), added to those reported before: next_state
applied 1, 2, ..., n times to the starting state. -/
theorem reported_states_after (t : Target) (filter : Double → Double → Double) (readings : Nat → Double)
    (k : Nat) (w : World) :
    reported_states (after_iterations t filter readings k w).out =
      reported_states w.out ++ (List.range k).map (fun j => next_state^[j + 1] w.loop.state) := by
  have h := reported_states_iterations t (fun j => next_state^[j + 1] w.loop.state)
    (fun j => List.foldl filter w.loop.value (readings_from readings w.reads (j + 1))) k
  unfold reported_states at h ⊢
  simp only [after_iterations, List.filterMap_append, h]


/-! ### Claims on run: span of the filtered value, persistence, trace -/

/-- With the exponential moving average and every reading equal to 13/64, the
filtered value after 331 iterations of run from the initial world is
13/64 + 2^-55, above the greatest of the initial value 0 and the readings. -/
theorem ema_run_exceeds_readings :
    (run Target.unix_like Ema.low_pass_filter (fun _ => Double.finite (13 / 64)) 331
        initial_world).map (fun w => w.loop.value) =
      some (Double.finite (7318349394477057 / 36028797018963968)) ∧
      span_hi 0 (readings_from (fun _ => (13 / 64 : ℚ)) 0 331) = 13 / 64 ∧
      (13 / 64 : ℚ) < 7318349394477057 / 36028797018963968 := by
  refine ⟨by decide!, ?_, by norm_num⟩
  rcases span_hi_mem (readings_from (fun _ => (13 / 64 : ℚ)) 0 331) 0 with h | h
  · have := (le_span_hi (readings_from (fun _ => (13 / 64 : ℚ)) 0 331) 0).2 (13 / 64)
      (List.mem_map.mpr ⟨0, List.mem_range.mpr (by norm_num), rfl⟩)
    rw [h] at this
    norm_num at this
  · obtain ⟨j, _, hj⟩ := mem_readings_from _ _ _ _ h
    exact hj

/-- C9: the loop state is not reset between calls: for all m, n >= 0, every
starting world and every stream of readings, run(m) followed by run(n) returns
the same world (state, value, readings consumed and whole trace of reported
lines) as a single run(m + n). -/
theorem run_then_run (t : Target) (filter : Double → Double → Double) (readings : Nat → Double) (m n : Int)
    (w : World) (hm : 0 ≤ m) (hn : 0 ≤ n) :
    ∃ w1 w2, run t filter readings m w = some w1 ∧ run t filter readings n w1 = some w2 ∧
      run t filter readings (m + n) w = some w2 := by
  refine ⟨_, _, run_eq_iterate t filter readings m w, run_eq_iterate t filter readings n _, ?_⟩
  rw [run_eq_iterate, Int.toNat_add hm hn, Nat.add_comm, Function.iterate_add_apply]

/-- Witness for C9: run(2) then run(3) against run(5) from the initial world. -/
theorem run_then_run_witness :
    ∃ w1 w2, run Target.unix_like Avg.low_pass_filter (fun _ => Double.finite 1) 2 initial_world = some w1 ∧
      run Target.unix_like Avg.low_pass_filter (fun _ => Double.finite 1) 3 w1 = some w2 ∧
      run Target.unix_like Avg.low_pass_filter (fun _ => Double.finite 1) (2 + 3) initial_world = some w2 :=
  run_then_run Target.unix_like Avg.low_pass_filter (fun _ => Double.finite 1) 2 3 initial_world
    (by decide) (by decide)

/-- C10: for every n > 0 the events run(n) adds to the trace are exactly n
repetitions of the triple: the line "State: %d" with the state after that
iteration's advance, the line "Filtered value: %f" with the value after folding in
that iteration's reading, and a pause SLEEP(100), which on every target is a
pause of 100 ms. -/
theorem run_trace (t : Target) (filter : Double → Double → Double) (readings : Nat → Double) (n : Int)
    (w : World) (hn : 0 < n) :
    ∃ w', run t filter readings n w = some w' ∧
      ((n.toNat : Int) = n) ∧
      w'.out = w.out ++ (List.range n.toNat).flatMap (fun j =>
        [Event.printf_d "State: %d\n" (next_state^[j + 1] w.loop.state),
         Event.printf_f "Filtered value: %f\n"
           (List.foldl filter w.loop.value (readings_from readings w.reads (j + 1))),
         SLEEP t 100]) ∧
      pause_ms (SLEEP t 100) = some 100 := by
  refine ⟨_, run_eq t filter readings n w, Int.toNat_of_nonneg hn.le, rfl, ?_⟩
  cases t <;> rfl

/-- Witness for C10: run(3) from the initial world with the running mean. -/
theorem run_trace_witness :
    ∃ w', run Target.unix_like Avg.low_pass_filter (fun _ => Double.finite 1) 3 initial_world = some w' ∧
      ((Int.toNat 3 : Int) = 3) ∧
      w'.out = initial_world.out ++ (List.range (Int.toNat 3)).flatMap (fun j =>
        [Event.printf_d "State: %d\n" (next_state^[j + 1] initial_world.loop.state),
         Event.printf_f "Filtered value: %f\n"
           (List.foldl Avg.low_pass_filter initial_world.loop.value
             (readings_from (fun _ => Double.finite 1) initial_world.reads (j + 1))),
         SLEEP Target.unix_like 100]) ∧
      pause_ms (SLEEP Target.unix_like 100) = some 100 :=
  run_trace Target.unix_like Avg.low_pass_filter (fun _ => Double.finite 1) 3 initial_world (by decide)

/-! ### Claims on the sensor -/

/-- C11, as amended: on Arduino builds read_sensor returns r with 0 <= r < 1 for
every random(100) result in 0..99; on host builds it returns r with 0 <= r <= 1
for every rand() result in 0..RAND_MAX, and r < 1 exactly when the rand()
result is below RAND_MAX. -/
theorem read_sensor_range (t : Target) (RAND_MAX raw : Int) (hR : 0 < RAND_MAX)
    (h0 : 0 ≤ raw) (hmax : raw ≤ (if t = Target.arduino then 99 else RAND_MAX)) :
    0 ≤ read_sensor t RAND_MAX raw ∧ read_sensor t RAND_MAX raw ≤ 1 ∧
      (t = Target.arduino → read_sensor t RAND_MAX raw < 1) ∧
      (t ≠ Target.arduino → (read_sensor t RAND_MAX raw < 1 ↔ raw < RAND_MAX)) := by
  have hRq : (0 : ℚ) < (RAND_MAX : ℚ) := by exact_mod_cast hR
  have h0q : (0 : ℚ) ≤ (raw : ℚ) := by exact_mod_cast h0
  cases t
  · have hm : (raw : ℚ) ≤ 99 := by
      have : raw ≤ 99 := by simpa using hmax
      exact_mod_cast this
    simp only [read_sensor]
    refine ⟨by positivity, ?_, ?_, ?_⟩
    · rw [div_le_one (by norm_num)]; linarith
    · intro _; rw [div_lt_one (by norm_num)]; linarith
    · intro h; exact absurd rfl h
  all_goals
    have hm : (raw : ℚ) ≤ (RAND_MAX : ℚ) := by
      have : raw ≤ RAND_MAX := by simpa using hmax
      exact_mod_cast this
    simp only [read_sensor]
    refine ⟨by positivity, ?_, ?_, ?_⟩
    · rw [div_le_one hRq]; exact hm
    · intro h; cases h
    · intro _; rw [div_lt_one hRq]; exact_mod_cast Iff.rfl

/-- Witness for C11, as amended: a host build with RAND_MAX = 2147483647 and
the rand() result 1073741823. -/
theorem read_sensor_range_witness :
    0 ≤ read_sensor Target.unix_like 2147483647 1073741823 ∧
      read_sensor Target.unix_like 2147483647 1073741823 ≤ 1 ∧
      (Target.unix_like = Target.arduino →
        read_sensor Target.unix_like 2147483647 1073741823 < 1) ∧
      (Target.unix_like ≠ Target.arduino →
        (read_sensor Target.unix_like 2147483647 1073741823 < 1 ↔
          (1073741823 : Int) < 2147483647)) :=
  read_sensor_range Target.unix_like 2147483647 1073741823 (by decide) (by decide) (by decide)

/-- Counterexample to C11 as stated: on a host build rand() may return
RAND_MAX, and read_sensor then returns exactly 1, which is not below 1. -/
theorem read_sensor_reaches_one :
    read_sensor Target.unix_like 2147483647 2147483647 = 1 ∧
      ¬ (read_sensor Target.unix_like 2147483647 2147483647 < 1) ∧
      read_sensor Target.win32 32767 32767 = 1 ∧
      ¬ (read_sensor Target.win32 32767 32767 < 1) := by
  have h1 : read_sensor Target.unix_like 2147483647 2147483647 = 1 := by
    simp only [read_sensor]; norm_num
  have h2 : read_sensor Target.win32 32767 32767 = 1 := by
    simp only [read_sensor]; norm_num
  refine ⟨h1, ?_, h2, ?_⟩
  · rw [h1]; exact lt_irrefl 1
  · rw [h2]; exact lt_irrefl 1

/-! ### Claims on the greeting -/

/-- C14: get_greeting returns "Hallo, Welt!" when CONFIG_LANG_DE is defined and
equal to 1, and "Hello, world!" in every other configuration (not defined, or
defined with another value); no other string is returned. -/
theorem get_greeting_variants (CONFIG_LANG_DE : Option Int) :
    get_greeting (some 1) = "Hallo, Welt!" ∧
      get_greeting none = "Hello, world!" ∧
      (CONFIG_LANG_DE ≠ some 1 → get_greeting CONFIG_LANG_DE = "Hello, world!") ∧
      (get_greeting CONFIG_LANG_DE = "Hallo, Welt!" ∨
        get_greeting CONFIG_LANG_DE = "Hello, world!") := by
  refine ⟨rfl, rfl, ?_, ?_⟩
  · intro h; simp [get_greeting, h]
  · by_cases h : CONFIG_LANG_DE = some 1
    · left; simp [get_greeting, h]
    · right; simp [get_greeting, h]

/-! ### Claims on main -/

/-- A string that does not begin with a number denotes 0. -/
theorem atoi_chars_eq_zero (s : String) (h : starts_with_number s = false) :
    atoi_chars s.toList = 0 := by
  unfold starts_with_number at h
  unfold atoi_chars
  cases hd : List.dropWhile isspace s.toList with
  | nil => rfl
  | cons c rest =>
    rw [hd] at h
    simp only at h ⊢
    by_cases hm : c = '-'
    · subst hm
      cases rest with
      | nil => rfl
      | cons d ds =>
        have hdig : d.isDigit = false := by simpa using h
        simp [atoi_digits, hdig]
    · by_cases hp : c = '+'
      · subst hp
        cases rest with
        | nil => rfl
        | cons d ds =>
          have hdig : d.isDigit = false := by simpa using h
          simp [atoi_digits, hdig]
      · have hdig : c.isDigit = false := by simpa [hm, hp] using h
        simp [hm, hp, atoi_digits, hdig]

theorem to_long_zero (long_bits : Nat) : to_long long_bits 0 = 0 := by
  unfold to_long
  have h : (0 : Int) < 2 ^ (long_bits - 1) := by positivity
  omega

theorem to_int_range (v : Int) : -2 ^ 31 ≤ to_int v ∧ to_int v ≤ 2 ^ 31 - 1 := by
  unfold to_int
  norm_num
  omega

/-- A string that does not begin with a number is converted to 0 by atoi. -/
theorem atoi_eq_zero (long_bits : Nat) (s : String) (h : starts_with_number s = false) :
    atoi long_bits s = 0 := by
  unfold atoi
  rw [atoi_chars_eq_zero s h, to_long_zero]
  rfl

theorem parsed_iterations_range (long_bits : Nat) (argv : List String) :
    -2 ^ 31 ≤ parsed_iterations long_bits argv ∧ parsed_iterations long_bits argv ≤ 2 ^ 31 - 1 := by
  unfold parsed_iterations
  split
  · exact to_int_range _
  · norm_num

theorem main_eq (t : Target) (long_bits : Nat) (filter : Double → Double → Double)
    (readings : Nat → Double) (argv : List String) (w : World) (ht : t ≠ Target.arduino) :
    Program.main t long_bits filter readings argv w =
      some (0, after_iterations t filter readings (parsed_iterations long_bits argv).toNat
        { w with out := w.out ++ [Event.printf_s "Running on %s...\n" (PLATFORM t),
            if parsed_iterations long_bits argv > 0 then
              Event.printf_d "Running for %d iterations...\n" (parsed_iterations long_bits argv)
            else Event.printf "Skip running...\n"] }) := by
  have hn : (match argv with
      | _ :: arg1 :: _ => atoi long_bits arg1
      | _ => 0) = parsed_iterations long_bits argv := rfl
  cases t with
  | arduino => exact absurd rfl ht
  | win32 =>
    simp only [Program.main, hn, run_eq]
    split <;> simp
  | unix_like =>
    simp only [Program.main, hn, run_eq]
    split <;> simp

theorem parsed_iterations_eq_zero (long_bits : Nat) (argv : List String)
    (harg : argv.length ≤ 1 ∨ ∃ arg1, argv[1]? = some arg1 ∧ starts_with_number arg1 = false) :
    parsed_iterations long_bits argv = 0 := by
  match argv, harg with
  | [], _ => rfl
  | [_], _ => rfl
  | _ :: a :: _, .inl h => simp at h
  | _ :: a :: _, .inr ⟨arg1, h1, h2⟩ =>
    have : a = arg1 := by simpa using h1
    subst this
    exact atoi_eq_zero long_bits a h2

/-- C12: PLATFORM is "Arduino", "WIN32" or "Unix-like" per target. In every run
of main (main.c compiles main only when ARDUINO is not defined), for every
argument vector and every width of long, the parsed count n is a 32-bit int;
main first emits "Running on <PLATFORM>...", then "Running for <n> iterations..."
if and only if n > 0 and "Skip running..." if and only if n <= 0, then calls
run(n), and returns exit status 0. -/
theorem main_trace (t : Target) (long_bits : Nat) (filter : Double → Double → Double)
    (readings : Nat → Double) (argv : List String) (w : World) (ht : t ≠ Target.arduino) :
    (PLATFORM Target.arduino = "Arduino" ∧ PLATFORM Target.win32 = "WIN32" ∧
      PLATFORM Target.unix_like = "Unix-like") ∧
    (-2 ^ 31 ≤ parsed_iterations long_bits argv ∧
      parsed_iterations long_bits argv ≤ 2 ^ 31 - 1) ∧
      ∃ line2 w',
        Program.main t long_bits filter readings argv w = some (0, w') ∧
        (line2 = Event.printf_d "Running for %d iterations...\n"
            (parsed_iterations long_bits argv) ↔ 0 < parsed_iterations long_bits argv) ∧
        (line2 = Event.printf "Skip running...\n" ↔ parsed_iterations long_bits argv ≤ 0) ∧
        run t filter readings (parsed_iterations long_bits argv)
          { w with out := w.out ++ [Event.printf_s "Running on %s...\n" (PLATFORM t), line2] }
          = some w' ∧
        (w.out ++ [Event.printf_s "Running on %s...\n" (PLATFORM t), line2]) <+: w'.out := by
  refine ⟨⟨rfl, rfl, rfl⟩, parsed_iterations_range long_bits argv, ?_⟩
  refine ⟨_, _, main_eq t long_bits filter readings argv w ht, ?_, ?_,
    run_eq t filter readings _ _, ?_⟩
  · by_cases h : parsed_iterations long_bits argv > 0
    · simp [h]
    · simp [h]
  · by_cases h : parsed_iterations long_bits argv > 0
    · simp [h]
    · simp [h]; omega
  · simp only [after_iterations]
    exact List.prefix_append _ _

/-- Witness for C12: a Unix-like build with a 64-bit long, called with the
argument 3. -/
theorem main_trace_witness :
    (PLATFORM Target.arduino = "Arduino" ∧ PLATFORM Target.win32 = "WIN32" ∧
      PLATFORM Target.unix_like = "Unix-like") ∧
    (-2 ^ 31 ≤ parsed_iterations 64 ["prog", "3"] ∧
      parsed_iterations 64 ["prog", "3"] ≤ 2 ^ 31 - 1) ∧
      ∃ line2 w',
        Program.main Target.unix_like 64 Avg.low_pass_filter (fun _ => Double.finite 1)
          ["prog", "3"] initial_world = some (0, w') ∧
        (line2 = Event.printf_d "Running for %d iterations...\n"
            (parsed_iterations 64 ["prog", "3"]) ↔ 0 < parsed_iterations 64 ["prog", "3"]) ∧
        (line2 = Event.printf "Skip running...\n" ↔ parsed_iterations 64 ["prog", "3"] ≤ 0) ∧
        run Target.unix_like Avg.low_pass_filter (fun _ => Double.finite 1)
          (parsed_iterations 64 ["prog", "3"])
          { initial_world with
            out := initial_world.out ++
              [Event.printf_s "Running on %s...\n" (PLATFORM Target.unix_like), line2] }
          = some w' ∧
        (initial_world.out ++
          [Event.printf_s "Running on %s...\n" (PLATFORM Target.unix_like), line2]) <+: w'.out :=
  main_trace Target.unix_like 64 Avg.low_pass_filter (fun _ => Double.finite 1) ["prog", "3"]
    initial_world (by decide)

/-- The numerals just outside the range of int: with a 64-bit long atoi wraps,
so main skips on "2147483648" and announces 2147483647 iterations on
"-2147483649"; with a 32-bit long atoi saturates. -/
theorem atoi_out_of_range :
    atoi 64 "2147483648" = -2147483648 ∧ atoi 64 "-2147483649" = 2147483647 ∧
      atoi 32 "2147483648" = 2147483647 ∧ atoi 32 "-2147483649" = -2147483648 := by
  decide

/-- C13, as amended: on a build that has a main, when the iteration-count
argument is absent, or is a string that does not begin (after optional white
space and an optional sign) with a decimal digit, such as "abc" or "", main takes
the iteration count to be zero: it emits the platform line and the skip message,
executes no loop iteration and returns exit status 0. -/
theorem main_skips_without_number (t : Target) (long_bits : Nat)
    (filter : Double → Double → Double) (readings : Nat → Double)
    (argv : List String) (w : World) (ht : t ≠ Target.arduino)
    (harg : argv.length ≤ 1 ∨
      ∃ arg1, argv[1]? = some arg1 ∧ starts_with_number arg1 = false) :
    parsed_iterations long_bits argv = 0 ∧
      Program.main t long_bits filter readings argv w =
        some (0, { w with out := w.out ++
          [Event.printf_s "Running on %s...\n" (PLATFORM t),
           Event.printf "Skip running...\n"] }) := by
  have h0 := parsed_iterations_eq_zero long_bits argv harg
  refine ⟨h0, ?_⟩
  rw [main_eq t long_bits filter readings argv w ht, h0]
  simp [after_iterations, readings_from]

/-- Witness for C13, as amended: no argument, the argument "abc" and the empty
argument. -/
theorem main_skips_without_number_witness :
    (parsed_iterations 64 ["prog"] = 0 ∧
      Program.main Target.unix_like 64 Avg.low_pass_filter (fun _ => Double.finite 1) ["prog"]
          initial_world =
        some (0, { initial_world with out := initial_world.out ++
          [Event.printf_s "Running on %s...\n" (PLATFORM Target.unix_like),
           Event.printf "Skip running...\n"] })) ∧
    (parsed_iterations 64 ["prog", "abc"] = 0 ∧
      Program.main Target.unix_like 64 Avg.low_pass_filter (fun _ => Double.finite 1)
          ["prog", "abc"] initial_world =
        some (0, { initial_world with out := initial_world.out ++
          [Event.printf_s "Running on %s...\n" (PLATFORM Target.unix_like),
           Event.printf "Skip running...\n"] })) ∧
    (parsed_iterations 64 ["prog", ""] = 0 ∧
      Program.main Target.unix_like 64 Avg.low_pass_filter (fun _ => Double.finite 1)
          ["prog", ""] initial_world =
        some (0, { initial_world with out := initial_world.out ++
          [Event.printf_s "Running on %s...\n" (PLATFORM Target.unix_like),
           Event.printf "Skip running...\n"] })) :=
  ⟨main_skips_without_number Target.unix_like 64 Avg.low_pass_filter
      (fun _ => Double.finite 1) ["prog"] initial_world (by decide) (Or.inl (by decide)),
    main_skips_without_number Target.unix_like 64 Avg.low_pass_filter
      (fun _ => Double.finite 1) ["prog", "abc"] initial_world (by decide)
      (Or.inr ⟨"abc", rfl, by decide⟩),
    main_skips_without_number Target.unix_like 64 Avg.low_pass_filter
      (fun _ => Double.finite 1) ["prog", ""] initial_world (by decide)
      (Or.inr ⟨"", rfl, by decide⟩)⟩

/-- Counterexample to C13 as stated: the argument "3x" is not a decimal integer,
yet atoi converts its leading digit, so main announces 3 iterations and run
executes them (three readings consumed, nine loop events emitted). -/
theorem main_runs_on_3x :
    atoi 64 "3x" = 3 ∧
      Program.main Target.unix_like 64 Avg.low_pass_filter (fun _ => Double.finite 1)
          ["prog", "3x"] initial_world =
        some (0,
          { loop := { state := STATE_A, value := Double.finite (7 / 8) }, reads := 3,
            out := [Event.printf_s "Running on %s...\n" "Unix-like",
                    Event.printf_d "Running for %d iterations...\n" 3,
                    Event.printf_d "State: %d\n" 1,
                    Event.printf_f "Filtered value: %f\n" (Double.finite (1 / 2)),
                    Event.usleep 100000,
                    Event.printf_d "State: %d\n" 2,
                    Event.printf_f "Filtered value: %f\n" (Double.finite (3 / 4)),
                    Event.usleep 100000,
                    Event.printf_d "State: %d\n" 0,
                    Event.printf_f "Filtered value: %f\n" (Double.finite (7 / 8)),
                    Event.usleep 100000] }) := by
  refine ⟨by decide, by decide!⟩

/-! ### Claims on run: determinism -/

theorem readings_from_congr {α : Type} (r1 r2 : Nat → α) (s1 s2 k : Nat)
    (h : readings_from r1 s1 k = readings_from r2 s2 k) (j : Nat) (hj : j ≤ k) :
    readings_from r1 s1 j = readings_from r2 s2 j := by
  have hpt : ∀ i, i < k → r1 (s1 + i) = r2 (s2 + i) := by
    intro i hi
    have := congrArg (fun l => l[i]?) h
    simpa [readings_from, hi] using this
  unfold readings_from
  apply List.map_congr_left
  intro i hi
  exact hpt i (lt_of_lt_of_le (List.mem_range.mp hi) hj)

/-- C15: two executions of run with the same starting LoopState, the same
iteration count and the same sequence of raw sensor readings (whatever their
targets, earlier traces, earlier sensor reads and later readings) report the
same sequence of states and the same sequence of filtered values, and end in
the same LoopState. -/
theorem run_deterministic (t1 t2 : Target) (filter : Double → Double → Double) (r1 r2 : Nat → Double) (n : Int)
    (w1 w2 : World) (hloop : w1.loop = w2.loop)
    (hreadings : readings_from r1 w1.reads n.toNat = readings_from r2 w2.reads n.toNat) :
    ∃ w1' w2' states values,
      run t1 filter r1 n w1 = some w1' ∧ run t2 filter r2 n w2 = some w2' ∧
      w1'.loop = w2'.loop ∧
      reported_states w1'.out = reported_states w1.out ++ states ∧
      reported_states w2'.out = reported_states w2.out ++ states ∧
      reported_values w1'.out = reported_values w1.out ++ values ∧
      reported_values w2'.out = reported_values w2.out ++ values := by
  refine ⟨_, _, _, _, run_eq t1 filter r1 n w1, run_eq t2 filter r2 n w2, ?_,
    reported_states_after t1 filter r1 n.toNat w1, ?_,
    reported_values_after t1 filter r1 n.toNat w1, ?_⟩
  · simp only [after_iterations, hloop, hreadings]
  · rw [reported_states_after, hloop]
  · rw [reported_values_after, hloop]
    congr 1
    apply List.map_congr_left
    intro j hj
    rw [readings_from_congr r1 r2 w1.reads w2.reads n.toNat hreadings (j + 1)
      (List.mem_range.mp hj)]

/-- Witness for C15: two runs of three iterations from the initial LoopState
fed the readings 1, 1, 1, on different targets, the second after an earlier
sensor read and an earlier output line. -/
theorem run_deterministic_witness :
    ∃ w1' w2' states values,
      run Target.unix_like Avg.low_pass_filter (fun _ => Double.finite 1) 3 initial_world = some w1' ∧
      run Target.win32 Avg.low_pass_filter (fun k => if k = 0 then Double.finite 5 else Double.finite 1) 3
        { loop := initial_loop_state, reads := 1, out := [Event.printf "Skip running...\n"] }
        = some w2' ∧
      w1'.loop = w2'.loop ∧
      reported_states w1'.out = reported_states initial_world.out ++ states ∧
      reported_states w2'.out =
        reported_states [Event.printf "Skip running...\n"] ++ states ∧
      reported_values w1'.out = reported_values initial_world.out ++ values ∧
      reported_values w2'.out =
        reported_values [Event.printf "Skip running...\n"] ++ values :=
  run_deterministic Target.unix_like Target.win32 Avg.low_pass_filter (fun _ => Double.finite 1)
    (fun k => if k = 0 then Double.finite 5 else Double.finite 1) 3 initial_world
    { loop := initial_loop_state, reads := 1, out := [Event.printf "Skip running...\n"] }
    rfl (by decide)

/-! ### Claims on the running mean: closed form -/

/-- Counterexample to C16 as stated: for the doubles nearest 0.01 and 0.02 the
sum is rounded, so the result of the running mean minus raw differs from
(previous - raw) / 2, both as real numbers and when the two sides are computed
in binary64 arithmetic. -/
theorem avg_filter_rounds_sum :
    Double.round (1 / 100) = Double.finite (5764607523034235 / 576460752303423488) ∧
      Double.round (2 / 100) = Double.finite (5764607523034235 / 288230376151711744) ∧
      Avg.low_pass_filter (Double.finite (5764607523034235 / 576460752303423488))
          (Double.finite (5764607523034235 / 288230376151711744)) =
        Double.finite (1080863910568919 / 72057594037927936) ∧
      (1080863910568919 / 72057594037927936 : ℚ) - 5764607523034235 / 288230376151711744 ≠
        (5764607523034235 / 576460752303423488 - 5764607523034235 / 288230376151711744) / 2 ∧
      Double.sub
          (Avg.low_pass_filter (Double.finite (5764607523034235 / 576460752303423488))
            (Double.finite (5764607523034235 / 288230376151711744)))
          (Double.finite (5764607523034235 / 288230376151711744)) ≠
        Double.div
          (Double.sub (Double.finite (5764607523034235 / 576460752303423488))
            (Double.finite (5764607523034235 / 288230376151711744)))
          (Double.round 2) := by
  refine ⟨by decide!, by decide!, by decide!, by norm_num, by decide!⟩

/-- A step of the running mean that meets no rounding returns the mean. -/
theorem avg_filter_exact (p r : ℚ) (h1 : is_double (p + r)) (h2 : is_double ((p + r) / 2)) :
    Avg.low_pass_filter (Double.finite p) (Double.finite r) = Double.finite ((p + r) / 2) := by
  rw [avg_filter_finite, show Double.round (p + r) = Double.finite (p + r) from h1,
    div_two_finite]
  exact h2

theorem foldl_avg_exact (rs : List ℚ) : ∀ v : ℚ, exact_mean_steps v rs →
    List.foldl Avg.low_pass_filter (Double.finite v) (rs.map Double.finite) =
      Double.finite (List.foldl (fun a b => (a + b) / 2) v rs) := by
  induction rs with
  | nil => intro v _; rfl
  | cons x rs ih =>
    intro v h
    obtain ⟨h1, h2, h3⟩ := h
    simp only [List.map_cons, List.foldl_cons, avg_filter_exact v x h1 h2]
    exact ih _ h3

theorem foldl_mean_closed_form (v0 : ℚ) (r : Nat → ℚ) (n : Nat) :
    List.foldl (fun a b => (a + b) / 2) v0 (readings_from r 0 n) =
      v0 / 2 ^ n + ∑ i in Finset.range n, r i / 2 ^ (n - i) := by
  induction n with
  | zero => simp [readings_from]
  | succ n ih =>
    rw [readings_from_succ, List.foldl_append, ih, Finset.sum_range_succ]
    have hsum : ∑ i in Finset.range n, r i / 2 ^ (n + 1 - i) =
        (∑ i in Finset.range n, r i / 2 ^ (n - i)) / 2 := by
      rw [Finset.sum_div]
      apply Finset.sum_congr rfl
      intro i hi
      have hle : i ≤ n := (Finset.mem_range.mp hi).le
      rw [Nat.succ_sub hle, pow_succ]
      field_simp
    rw [hsum]
    simp only [List.foldl_cons, List.foldl_nil, zero_add,
      Nat.add_sub_cancel_left, pow_one, pow_succ]
    field_simp
    ring

/-- C16, as amended: when the sum previous + raw and its half are computed
without rounding, the running mean filter returns (previous + raw) / 2, so
result - raw = (previous - raw) / 2; and when no step of the fold meets rounding,
folding the filter from v0 over the readings r_1..r_n gives
v0 / 2^n + sum over i = 1..n of r_i / 2^(n + 1 - i) (readings numbered from 0
below, reading i with weight 1 / 2^(n - i)). -/
theorem avg_filter_exact_history (previous raw v0 : ℚ) (r : Nat → ℚ) (n : Nat)
    (h1 : is_double (previous + raw)) (h2 : is_double ((previous + raw) / 2))
    (hsteps : exact_mean_steps v0 (readings_from r 0 n)) :
    Avg.low_pass_filter (Double.finite previous) (Double.finite raw) =
        Double.finite ((previous + raw) / 2) ∧
      (previous + raw) / 2 - raw = (previous - raw) / 2 ∧
      List.foldl Avg.low_pass_filter (Double.finite v0)
          (readings_from (finite_readings r) 0 n) =
        Double.finite (v0 / 2 ^ n + ∑ i in Finset.range n, r i / 2 ^ (n - i)) := by
  refine ⟨avg_filter_exact previous raw h1 h2, by ring, ?_⟩
  rw [readings_from_finite, foldl_avg_exact _ _ hsteps, foldl_mean_closed_form]

/-- Witness for C16, as amended: the pair (1, 2), and the fold from 0 over the
readings 1, 1, 1, whose partial results 1/2, 3/4, 7/8 need no rounding. -/
theorem avg_filter_exact_history_witness :
    Avg.low_pass_filter (Double.finite 1) (Double.finite 2) =
        Double.finite (((1 : ℚ) + 2) / 2) ∧
      ((1 : ℚ) + 2) / 2 - 2 = (1 - 2) / 2 ∧
      List.foldl Avg.low_pass_filter (Double.finite 0)
          (readings_from (finite_readings (fun _ => 1)) 0 3) =
        Double.finite (0 / 2 ^ 3 + ∑ i in Finset.range 3, (fun _ => (1 : ℚ)) i / 2 ^ (3 - i)) :=
  avg_filter_exact_history 1 2 0 (fun _ => 1) 3 (by decide!) (by decide!)
    (show exact_mean_steps 0 [1, 1, 1] from
      ⟨by decide!, by decide!, by decide!, by decide!, by decide!, by decide!, trivial⟩)

/-! ### Claims on run: span from any starting value -/

theorem next_state_mod (k : Int) : next_state (k % 3) = (k + 1) % 3 := by
  unfold next_state STATE_A STATE_B STATE_C
  have h : k % 3 = 0 ∨ k % 3 = 1 ∨ k % 3 = 2 := by omega
  rcases h with h | h | h
  · rw [h]; simp; show (1 : Int) = (k + 1) % 3; omega
  · rw [h]; simp; show (2 : Int) = (k + 1) % 3; omega
  · rw [h]; simp; show (0 : Int) = (k + 1) % 3; omega

/-- From STATE_A, k transitions lead to the state of code k mod 3. -/
theorem next_state_iterate (k : Nat) : next_state^[k] STATE_A = (k : Int) % 3 := by
  induction k with
  | zero => rfl
  | succ k ih =>
    rw [Function.iterate_succ_apply', ih, next_state_mod]
    push_cast
    rfl

/-- C18: from the initial world (state STATE_A, code 0), for every n >= 1 the
state code reported in the i-th iteration of run(n), i in 1..n, is i mod 3; the
first event is the line "State: %d" with code 1, written "State: 1", so the
initial STATE_A is not reported before being advanced; the reported codes repeat
with period 3. -/
theorem reported_state_codes (t : Target) (filter : Double → Double → Double) (readings : Nat → Double)
    (n : Int) (hn : 1 ≤ n) :
    ∃ w', run t filter readings n initial_world = some w' ∧
      ((n.toNat : Int) = n) ∧
      (initial_world.loop.state = STATE_A ∧ STATE_A = 0) ∧
      reported_states w'.out = (List.range n.toNat).map (fun j => ((j + 1 : Nat) : Int) % 3) ∧
      (∀ i : Nat, 1 ≤ i → i ≤ n.toNat →
        (reported_states w'.out)[i - 1]? = some ((i : Int) % 3)) ∧
      w'.out.head? = some (Event.printf_d "State: %d\n" 1) ∧
      printf_d_text "State: %d\n" 1 = "State: 1\n" ∧
      (∀ i : Nat, i + 3 < n.toNat →
        (reported_states w'.out)[i + 3]? = (reported_states w'.out)[i]?) := by
  have hstates : reported_states (after_iterations t filter readings n.toNat initial_world).out =
      (List.range n.toNat).map (fun j => ((j + 1 : Nat) : Int) % 3) := by
    rw [reported_states_after]
    simp only [initial_world, initial_loop_state, reported_states, List.filterMap_nil,
      List.nil_append]
    apply List.map_congr_left
    intro j _
    exact next_state_iterate (j + 1)
  have hpos : 0 < n.toNat := by omega
  refine ⟨_, run_eq t filter readings n initial_world, Int.toNat_of_nonneg (by omega),
    ⟨rfl, rfl⟩, hstates, ?_, ?_, by decide, ?_⟩
  · intro i h1 hi
    rw [hstates]
    have hlt : i - 1 < n.toNat := by omega
    simp [hlt]
    omega
  · obtain ⟨m, hm⟩ : ∃ m, n.toNat = m + 1 := ⟨n.toNat - 1, by omega⟩
    simp only [after_iterations, hm, initial_world, initial_loop_state, List.nil_append]
    rw [List.range_succ_eq_map]
    simp [iteration_events, next_state, STATE_A, STATE_B]
  · intro i hi
    rw [hstates]
    have h1 : i + 3 < n.toNat := hi
    have h2 : i < n.toNat := by omega
    simp [h1, h2]
    omega

/-- Witness for C18: run(4) from the initial world. -/
theorem reported_state_codes_witness :
    ∃ w', run Target.unix_like Avg.low_pass_filter (fun _ => Double.finite 1) 4 initial_world = some w' ∧
      ((Int.toNat 4 : Int) = 4) ∧
      (initial_world.loop.state = STATE_A ∧ STATE_A = 0) ∧
      reported_states w'.out =
        (List.range (Int.toNat 4)).map (fun j => ((j + 1 : Nat) : Int) % 3) ∧
      (∀ i : Nat, 1 ≤ i → i ≤ Int.toNat 4 →
        (reported_states w'.out)[i - 1]? = some ((i : Int) % 3)) ∧
      w'.out.head? = some (Event.printf_d "State: %d\n" 1) ∧
      printf_d_text "State: %d\n" 1 = "State: 1\n" ∧
      (∀ i : Nat, i + 3 < Int.toNat 4 →
        (reported_states w'.out)[i + 3]? = (reported_states w'.out)[i]?) :=
  reported_state_codes Target.unix_like Avg.low_pass_filter (fun _ => Double.finite 1) 4 (by decide)
